import Mathlib

/-!
# Order book and price-priority matching (`stock_trading_system.c`)

A shallow embedding of the order book of `stock_trading_system.c` and of its two
operations `addOrder` and `matchOrder`, run sequentially (one call at a time).

* an `int` quantity is an integer, and the subtractions on quantities are reduced to
  the 32-bit two's-complement range by `wrapInt`;
* a ticker is a string of one-byte characters, `strlen` its length and
  `strcmp(..) == 0` equality of strings;
* a `double` price is the exact value of a finite double, written as an integer
  multiple of `2^-1074` (every finite double is one), so that the comparisons
  `<=` and `<` of the source are the integer comparisons; NaN and the infinities
  are outside the model;
* the counter `count` is a natural number (books have `0 <= count`); run
  sequentially, `atomic_fetch_add` and `atomic_fetch_sub` are `count + 1` and
  `count - 1`;
* the array `orders[MAX_ORDERS]` is a function on slot indices, read through
  `OrderBook.read`, which fails outside `0 .. MAX_ORDERS - 1`;
* the `MATCH` lines printed by `matchOrder` form the list of `Fill` records.
-/

namespace TradingEngine

/-! ## Constants and machine integers -/

/-- Capacity of the book: `#define MAX_ORDERS 10000`. -/
def MAX_ORDERS : Nat := 10000

/-- Size of the ticker buffer: `#define MAX_TICKER_LENGTH 10`. -/
def MAX_TICKER_LENGTH : Nat := 10

/-- Largest value of a C `int`. -/
def INT_MAX : Int := 2147483647

/-- Smallest value of a C `int`. -/
def INT_MIN : Int := -2147483648

/-- Reduction of an integer to the 32-bit two's-complement range of `int`. -/
def wrapInt (x : Int) : Int := (x + 2147483648) % 4294967296 - 2147483648

/-- Prices: the value of a finite `double` in units of `2^-1074`. -/
abbrev Price := Int

/-- The largest finite double `__DBL_MAX__`, `(2^53 - 1) * 2^971`, in units of `2^-1074`:
`(2^53 - 1) * 2^2045`, with `2^2045` written as `(2^255)^8 * 2^5`. -/
def DBL_MAX : Price := Int.ofNat ((2 ^ 53 - 1) * ((2 ^ 255) ^ 8 * 2 ^ 5))

/-- A price of `n` whole currency units, in units of `2^-1074`: `n * 2^1074`, with
`2^1074` written as `(2^179)^6`. -/
def dollars (n : Int) : Price := n * Int.ofNat ((2 ^ 179) ^ 6)

/-! ## Data model -/

/-- The enum `OrderType`. -/
inductive OrderType where
  | BUY
  | SELL
deriving DecidableEq, Repr

/-- The struct `Order`; `is_matched` is the Filled flag. -/
structure Order where
  type : OrderType
  ticker : String
  quantity : Int
  price : Price
  order_id : Int
  is_matched : Bool
deriving DecidableEq, Repr

/-- The struct `OrderBook`: the counter `count` and the slots `orders[k]`. -/
structure OrderBook where
  count : Nat
  orders : Nat → Order

/-- A zero-initialised slot. -/
def zeroOrder : Order :=
  { type := OrderType.BUY, ticker := "", quantity := 0, price := 0, order_id := 0,
    is_matched := false }

/-- The global `order_book = {0}`: the empty book. -/
def order_book : OrderBook := { count := 0, orders := fun _ => zeroOrder }

/-- Bounds-checked read of `orders[k]`. -/
def OrderBook.read (b : OrderBook) (k : Nat) : Option Order :=
  if k < MAX_ORDERS then some (b.orders k) else none

/-- Assignment `orders[k].quantity = q`. -/
def OrderBook.setQuantity (b : OrderBook) (k : Nat) (q : Int) : OrderBook :=
  { b with orders := fun n => if n = k then { b.orders k with quantity := q } else b.orders n }

/-- The store `atomic_store(&orders[k].is_matched, true)`. -/
def OrderBook.setMatched (b : OrderBook) (k : Nat) : OrderBook :=
  { b with orders := fun n => if n = k then { b.orders k with is_matched := true } else b.orders n }

/-! ## `addOrder` -/

/-- The function `addOrder`: the book after the call and the returned value
(`-1` on rejection, the slot index otherwise). -/
def addOrder (b : OrderBook) (type : OrderType) (ticker : String) (quantity : Int)
    (price : Price) : OrderBook × Int :=
  if ticker.length ≥ MAX_TICKER_LENGTH then (b, -1)
  else
    let current_index := b.count
    let b1 : OrderBook := { b with count := b.count + 1 }
    if current_index ≥ MAX_ORDERS then ({ b1 with count := b1.count - 1 }, -1)
    else
      ({ b1 with
          orders := fun n =>
            if n = current_index then
              { type := type, ticker := ticker, quantity := quantity, price := price,
                order_id := (current_index : Int), is_matched := false }
            else b1.orders n },
        (current_index : Int))

/-! ## `matchOrder` -/

/-- One `MATCH` line of `matchOrder`, together with the loop variables `i` and
`best_sell_index` at the time it is printed. -/
structure Fill where
  buy_index : Nat
  sell_index : Int
  buy_id : Int
  sell_id : Int
  ticker : String
  matched_quantity : Int
  price : Price
deriving DecidableEq, Repr

/-- Body of the inner loop `for j` (lines 91-100) on the pair
`(best_sell_index, best_sell_price)`. -/
def scanBody (b : OrderBook) (i : Nat) (buy_ticker : String) (buy_price : Price)
    (st : Int × Price) (j : Nat) : Option (Int × Price) :=
  if j ≠ i then
    (b.read j).bind fun oj =>
      if oj.is_matched = false ∧ oj.type = OrderType.SELL ∧ oj.ticker = buy_ticker ∧
          oj.price ≤ buy_price ∧ oj.price < st.2 then
        some ((j : Int), oj.price)
      else some st
  else some st

/-- The inner loop after its first `n` iterations `j = 0 .. n - 1`. -/
def scanLoop (b : OrderBook) (i : Nat) (buy_ticker : String) (buy_price : Price) :
    Nat → Option (Int × Price)
  | 0 => some (-1, DBL_MAX)
  | n + 1 => (scanLoop b i buy_ticker buy_price n).bind fun st =>
      scanBody b i buy_ticker buy_price st n

/-- Lines 104-127: the fill of buy `i` against `best_sell_index`. -/
def applyFill (b : OrderBook) (log : List Fill) (i : Nat) (oi : Order)
    (best_sell_index : Int) (best_sell_price : Price) : Option (OrderBook × List Fill) :=
  (b.read best_sell_index.toNat).bind fun os =>
    let buy_quantity := oi.quantity
    let sell_quantity := os.quantity
    let matched_quantity := if buy_quantity < sell_quantity then buy_quantity else sell_quantity
    let b1 := b.setQuantity i (wrapInt ((b.orders i).quantity - matched_quantity))
    let b2 := b1.setQuantity best_sell_index.toNat
      (wrapInt ((b1.orders best_sell_index.toNat).quantity - matched_quantity))
    let line : Fill :=
      { buy_index := i, sell_index := best_sell_index,
        buy_id := (b2.orders i).order_id,
        sell_id := (b2.orders best_sell_index.toNat).order_id,
        ticker := oi.ticker, matched_quantity := matched_quantity, price := best_sell_price }
    let b3 := if (b2.orders i).quantity = 0 then b2.setMatched i else b2
    let b4 := if (b3.orders best_sell_index.toNat).quantity = 0 then
      b3.setMatched best_sell_index.toNat else b3
    some (b4, log ++ [line])

/-- Body of the outer loop `for i` (lines 75-128), with `count` the snapshot taken
at the start of `matchOrder`. -/
def matchBody (count : Nat) (st : OrderBook × List Fill) (i : Nat) :
    Option (OrderBook × List Fill) :=
  (st.1.read i).bind fun oi =>
    if oi.is_matched then some st
    else if oi.type = OrderType.BUY then
      (scanLoop st.1 i oi.ticker oi.price count).bind fun best =>
        if best.1 ≠ -1 then applyFill st.1 st.2 i oi best.1 best.2
        else some st
    else some st

/-- The outer loop after its first `n` iterations `i = 0 .. n - 1`: the book
and the `MATCH` lines so far. -/
def matchLoop (b : OrderBook) (count : Nat) : Nat → Option (OrderBook × List Fill)
  | 0 => some (b, [])
  | n + 1 => (matchLoop b count n).bind fun st => matchBody count st n

/-- The function `matchOrder`: the book after the pass and the `MATCH` lines printed. -/
def matchOrder (b : OrderBook) : Option (OrderBook × List Fill) :=
  matchLoop b b.count b.count

/-! ## Sequential runs of the interface -/

/-- A call of one of the two operations, with its arguments. -/
inductive Call where
  | addOrder (type : OrderType) (ticker : String) (quantity : Int) (price : Price)
  | matchOrder

/-- State of a sequential run: the book, the values returned by the `addOrder` calls
so far (in call order), and for each accepted `addOrder` call the pair of the id it
returned and the quantity it was given. -/
structure Run where
  book : OrderBook
  returns : List Int
  accepted : List (Int × Int)

/-- The run that starts at book `b`. -/
def Run.start (b : OrderBook) : Run := { book := b, returns := [], accepted := [] }

/-- One call in a run. -/
def Run.call (r : Run) : Call → Option Run
  | Call.addOrder type ticker quantity price =>
    some
      { book := (addOrder r.book type ticker quantity price).1
        returns := r.returns ++ [(addOrder r.book type ticker quantity price).2]
        accepted :=
          if (addOrder r.book type ticker quantity price).2 = -1 then r.accepted
          else r.accepted ++ [((addOrder r.book type ticker quantity price).2, quantity)] }
  | Call.matchOrder => (matchOrder r.book).map fun res => { r with book := res.1 }

/-- A sequence of calls, one after the other. -/
def runCalls (r : Run) : List Call → Option Run
  | [] => some r
  | c :: cs => (r.call c).bind fun r2 => runCalls r2 cs

/-- The ids returned by the successful `addOrder` calls among the returned values. -/
def successIds (returns : List Int) : List Int := returns.filter fun v => decide (v ≠ -1)

/-- The call is `matchOrder`, or an `addOrder` whose quantity argument is `> 0`. -/
def Call.PositiveQuantity : Call → Prop
  | Call.addOrder _ _ quantity _ => 0 < quantity
  | Call.matchOrder => True

instance (c : Call) : Decidable c.PositiveQuantity := by
  cases c <;> unfold Call.PositiveQuantity <;> infer_instance

/-- The call is `matchOrder`, or an `addOrder` whose quantity argument is an `int`
that is `> 0`. -/
def Call.PositiveIntQuantity : Call → Prop
  | Call.addOrder _ _ quantity _ => 0 < quantity ∧ quantity ≤ INT_MAX
  | Call.matchOrder => True

instance (c : Call) : Decidable c.PositiveIntQuantity := by
  cases c <;> unfold Call.PositiveIntQuantity <;> infer_instance

/-- The calls of the three-order scenario followed by two matching passes. -/
def scenarioCalls : List Call :=
  [Call.addOrder OrderType.BUY "AAPL" 100 (dollars 50),
   Call.addOrder OrderType.SELL "AAPL" 40 (dollars 45),
   Call.addOrder OrderType.SELL "AAPL" 100 (dollars 48),
   Call.matchOrder, Call.matchOrder]

/-! ## Predicates and functions used in the statements -/

/-- The guard of lines 91-95 for a buy at index `i` with ticker `t` and price `p`. -/
def Guard (b : OrderBook) (i : Nat) (t : String) (p : Price) (j : Nat) : Prop :=
  j ≠ i ∧ (b.orders j).is_matched = false ∧ (b.orders j).type = OrderType.SELL ∧
    (b.orders j).ticker = t ∧ (b.orders j).price ≤ p

/-- What the pair `(best_sell_index, best_sell_price)` is after `n` iterations of the scan. -/
def ScanInv (b : OrderBook) (i : Nat) (t : String) (p : Price) (n : Nat)
    (st : Int × Price) : Prop :=
  (st.1 = -1 ∧ st.2 = DBL_MAX ∧ ∀ j, j < n → Guard b i t p j → DBL_MAX ≤ (b.orders j).price) ∨
  (∃ j0, j0 < n ∧ st.1 = (j0 : Int) ∧ st.2 = (b.orders j0).price ∧ Guard b i t p j0 ∧
    (b.orders j0).price < DBL_MAX ∧
    (∀ j, j < n → Guard b i t p j → (b.orders j0).price ≤ (b.orders j).price) ∧
    (∀ j, j < j0 → Guard b i t p j → (b.orders j0).price < (b.orders j).price))

/-- The matched quantity of line 106 for buy `i` and sell `j` of book `s`. -/
def matchedQty (s : OrderBook) (i j : Nat) : Int :=
  if (s.orders i).quantity < (s.orders j).quantity then (s.orders i).quantity
  else (s.orders j).quantity

/-- The book that lines 105-126 leave when buy `i` is filled against sell `j`. -/
def afterFill (s : OrderBook) (i j : Nat) : OrderBook :=
  { count := s.count
    orders := fun k =>
      if k = i then
        { s.orders i with
          quantity := wrapInt ((s.orders i).quantity - matchedQty s i j)
          is_matched := (s.orders i).is_matched ||
            decide (wrapInt ((s.orders i).quantity - matchedQty s i j) = 0) }
      else if k = j then
        { s.orders j with
          quantity := wrapInt ((s.orders j).quantity - matchedQty s i j)
          is_matched := (s.orders j).is_matched ||
            decide (wrapInt ((s.orders j).quantity - matchedQty s i j) = 0) }
      else s.orders k }

/-- The `MATCH` line printed when buy `i` is filled against sell `j` of book `s`. -/
def fillLine (s : OrderBook) (i j : Nat) : Fill :=
  { buy_index := i, sell_index := (j : Int), buy_id := (s.orders i).order_id,
    sell_id := (s.orders j).order_id, ticker := (s.orders i).ticker,
    matched_quantity := matchedQty s i j, price := (s.orders j).price }

/-- Membership of `j` in the set of sells eligible for the buy at index `i` of book `s`:
below `count`, different from `i`, Open, a Sell, same ticker, priced at most the buy. -/
def Eligible (s : OrderBook) (count i j : Nat) : Prop :=
  j < count ∧ j ≠ i ∧ (s.orders j).is_matched = false ∧ (s.orders j).type = OrderType.SELL ∧
    (s.orders j).ticker = (s.orders i).ticker ∧ (s.orders j).price ≤ (s.orders i).price

instance (s : OrderBook) (count i j : Nat) : Decidable (Eligible s count i j) := by
  unfold Eligible
  infer_instance

/-- The line `f` was printed by iteration `f.buy_index` of the outer loop run on `b`:
that iteration started from the state `s0`, selected the sell `j0` and filled against it. -/
def FillAt (b : OrderBook) (count : Nat) (f : Fill) : Prop :=
  ∃ s0 log0 j0, f.buy_index < count ∧
    matchLoop b count f.buy_index = some (s0, log0) ∧
    (s0.orders f.buy_index).is_matched = false ∧
    (s0.orders f.buy_index).type = OrderType.BUY ∧
    Eligible s0 count f.buy_index j0 ∧ (s0.orders j0).price < DBL_MAX ∧
    (∀ j, Eligible s0 count f.buy_index j → (s0.orders j0).price ≤ (s0.orders j).price) ∧
    (∀ j, Eligible s0 count f.buy_index j → j < j0 →
      (s0.orders j0).price < (s0.orders j).price) ∧
    f = fillLine s0 f.buy_index j0 ∧
    matchLoop b count (f.buy_index + 1) = some (afterFill s0 f.buy_index j0, log0 ++ [f])

/-- Every `quantity` field of the book holds a value of type `int`. -/
def OrderBook.IntQuantities (b : OrderBook) : Prop :=
  ∀ k, INT_MIN ≤ (b.orders k).quantity ∧ (b.orders k).quantity ≤ INT_MAX

/-! ## Sample books -/

/-- Buy `X` 1 share at `DBL_MAX`, then sell `X` 1 share at `DBL_MAX`. -/
def sentinelBook : OrderBook :=
  (addOrder (addOrder order_book OrderType.BUY "X" 1 DBL_MAX).1
    OrderType.SELL "X" 1 DBL_MAX).1

/-- Buy `AAPL` 100 at 50, sell `AAPL` 40 at 45, sell `AAPL` 100 at 48. -/
def scenarioBook : OrderBook :=
  (addOrder (addOrder (addOrder order_book OrderType.BUY "AAPL" 100 (dollars 50)).1
    OrderType.SELL "AAPL" 40 (dollars 45)).1 OrderType.SELL "AAPL" 100 (dollars 48)).1

/-- Buy `X` `INT_MAX` shares at 50, then sell `X` -1 shares at 40. -/
def overflowBook : OrderBook :=
  (addOrder (addOrder order_book OrderType.BUY "X" 2147483647 (dollars 50)).1
    OrderType.SELL "X" (-1) (dollars 40)).1

/-- The book left by one pass over buy `AAPL` 100 at 50 and sell `AAPL` 40 at 45: the buy
Open with 60 shares, the sell Filled. -/
def filledBook : OrderBook :=
  { count := 2
    orders := fun k =>
      if k = 0 then
        { type := OrderType.BUY, ticker := "AAPL", quantity := 60, price := dollars 50,
          order_id := 0, is_matched := false }
      else if k = 1 then
        { type := OrderType.SELL, ticker := "AAPL", quantity := 0, price := dollars 45,
          order_id := 1, is_matched := true }
      else zeroOrder }

/-- The call is `matchOrder`, or an `addOrder` whose ticker is shorter than
`MAX_TICKER_LENGTH`. -/
def Call.ValidTicker : Call → Prop
  | Call.addOrder _ ticker _ _ => ticker.length < MAX_TICKER_LENGTH
  | Call.matchOrder => True

instance (c : Call) : Decidable c.ValidTicker := by
  cases c <;> unfold Call.ValidTicker <;> infer_instance

/-- The number of `addOrder` attempts in a sequence of calls. -/
def attempts : List Call → Nat
  | [] => 0
  | Call.addOrder _ _ _ _ :: cs => attempts cs + 1
  | Call.matchOrder :: cs => attempts cs

/-- A book at capacity: `MAX_ORDERS` Open buys of one `AAPL` share at 50. -/
def fullBook : OrderBook :=
  { count := MAX_ORDERS
    orders := fun k =>
      { type := OrderType.BUY, ticker := "AAPL", quantity := 1, price := dollars 50,
        order_id := Int.ofNat k, is_matched := false } }

/-- Buy `X` 10 shares at 50, then sell `X` -5 shares at 40. -/
def negativeBook : OrderBook :=
  (addOrder (addOrder order_book OrderType.BUY "X" 10 (dollars 50)).1
    OrderType.SELL "X" (-5) (dollars 40)).1

/-- The sum `f 0 + ... + f (n - 1)`. -/
def sumBelow (f : Nat → Int) : Nat → Int
  | 0 => 0
  | n + 1 => sumBelow f n + f n

/-- The quantity of slot `k` if it holds an order of side `side` and ticker `t`, else 0. -/
def sideQuantity (b : OrderBook) (side : OrderType) (t : String) (k : Nat) : Int :=
  if (b.orders k).type = side ∧ (b.orders k).ticker = t then (b.orders k).quantity else 0

/-- The total quantity of the orders of side `side` and ticker `t` at the indices below
`count`. -/
def totalQuantity (b : OrderBook) (side : OrderType) (t : String) : Int :=
  sumBelow (sideQuantity b side t) b.count

/-- The number of Open orders at the indices below `n`. -/
def openCount (b : OrderBook) : Nat → Nat
  | 0 => 0
  | n + 1 => openCount b n + (if (b.orders n).is_matched then 0 else 1)

/-- The book after `n` successive `matchOrder` calls with no call in between. -/
def passes (b : OrderBook) : Nat → Option OrderBook
  | 0 => some b
  | n + 1 => (passes b n).bind fun s => (matchOrder s).map fun r => r.1

/-- The book is within capacity and each order below `count` has a quantity within
`0 .. INT_MAX` and is Filled exactly when its quantity is 0. -/
def OrderBook.Sound (b : OrderBook) : Prop :=
  b.count ≤ MAX_ORDERS ∧
    ∀ k, k < b.count →
      ((b.orders k).is_matched = true ↔ (b.orders k).quantity = 0) ∧
      0 ≤ (b.orders k).quantity ∧ (b.orders k).quantity ≤ INT_MAX

/-! ## The three outcomes of `addOrder` -/

theorem addOrder_ticker_too_long (b : OrderBook) (type : OrderType) (ticker : String)
    (quantity : Int) (price : Price) (ht : ticker.length ≥ MAX_TICKER_LENGTH) :
    addOrder b type ticker quantity price = (b, -1) := by
  unfold addOrder
  rw [if_pos ht]

theorem addOrder_book_full (b : OrderBook) (type : OrderType) (ticker : String)
    (quantity : Int) (price : Price) (ht : ticker.length < MAX_TICKER_LENGTH)
    (hfull : b.count ≥ MAX_ORDERS) : addOrder b type ticker quantity price = (b, -1) := by
  unfold addOrder
  rw [if_neg (Nat.not_le_of_lt ht)]
  simp only [hfull, if_true, Nat.add_sub_cancel]

theorem addOrder_accepted (b : OrderBook) (type : OrderType) (ticker : String)
    (quantity : Int) (price : Price) (ht : ticker.length < MAX_TICKER_LENGTH)
    (hroom : b.count < MAX_ORDERS) :
    addOrder b type ticker quantity price =
      ({ count := b.count + 1
         orders := fun n =>
           if n = b.count then
             { type := type, ticker := ticker, quantity := quantity, price := price,
               order_id := (b.count : Int), is_matched := false }
           else b.orders n },
        (b.count : Int)) := by
  unfold addOrder
  rw [if_neg (Nat.not_le_of_lt ht)]
  simp only [ge_iff_le, Nat.not_le_of_lt hroom, if_false]

/-! ## Auxiliary facts on reads and on the inner scan -/

theorem read_of_lt (b : OrderBook) (k : Nat) (h : k < MAX_ORDERS) :
    b.read k = some (b.orders k) := by
  simp [OrderBook.read, h]

theorem wrapInt_of_range (x : Int) (h1 : INT_MIN ≤ x) (h2 : x ≤ INT_MAX) : wrapInt x = x := by
  unfold INT_MIN at h1
  unfold INT_MAX at h2
  unfold wrapInt
  omega

theorem scanBody_inv (b : OrderBook) (i : Nat) (t : String) (p : Price) (n : Nat)
    (st : Int × Price) (hn : n < MAX_ORDERS) (h : ScanInv b i t p n st) :
    ∃ st2, scanBody b i t p st n = some st2 ∧ ScanInv b i t p (n + 1) st2 := by
  unfold scanBody
  by_cases hni : n = i
  · refine ⟨st, by simp [hni], ?_⟩
    rcases h with ⟨h1, h2, h3⟩ | ⟨j0, hj0, h1, h2, hg, hlt, hmin, htie⟩
    · refine Or.inl ⟨h1, h2, fun j hj hgj => ?_⟩
      rcases Nat.lt_succ_iff_lt_or_eq.mp hj with hj | hj
      · exact h3 j hj hgj
      · exact absurd (hj.trans hni) hgj.1
    · refine Or.inr ⟨j0, Nat.lt_succ_of_lt hj0, h1, h2, hg, hlt, fun j hj hgj => ?_, htie⟩
      rcases Nat.lt_succ_iff_lt_or_eq.mp hj with hj | hj
      · exact hmin j hj hgj
      · exact absurd (hj.trans hni) hgj.1
  · rw [if_pos hni, read_of_lt b n hn]
    simp only [Option.bind]
    by_cases hc : (b.orders n).is_matched = false ∧ (b.orders n).type = OrderType.SELL ∧
        (b.orders n).ticker = t ∧ (b.orders n).price ≤ p ∧ (b.orders n).price < st.2
    · rw [if_pos hc]
      obtain ⟨c1, c2, c3, c4, c5⟩ := hc
      have hbound : (b.orders n).price < DBL_MAX ∧
          ∀ j, j < n → Guard b i t p j → (b.orders n).price < (b.orders j).price := by
        rcases h with ⟨_, h2, h3⟩ | ⟨j0, _, _, h2, _, hlt, hmin, _⟩
        · rw [h2] at c5
          exact ⟨c5, fun j hj hgj => lt_of_lt_of_le c5 (h3 j hj hgj)⟩
        · rw [h2] at c5
          exact ⟨lt_trans c5 hlt, fun j hj hgj => lt_of_lt_of_le c5 (hmin j hj hgj)⟩
      refine ⟨_, rfl, Or.inr ⟨n, Nat.lt_succ_self n, rfl, rfl, ⟨hni, c1, c2, c3, c4⟩, hbound.1,
        fun j hj hgj => ?_, hbound.2⟩⟩
      rcases Nat.lt_succ_iff_lt_or_eq.mp hj with hj | hj
      · exact le_of_lt (hbound.2 j hj hgj)
      · rw [hj]
    · rw [if_neg hc]
      refine ⟨st, rfl, ?_⟩
      have hge : Guard b i t p n → st.2 ≤ (b.orders n).price := by
        intro hg
        by_contra hlt
        exact hc ⟨hg.2.1, hg.2.2.1, hg.2.2.2.1, hg.2.2.2.2, lt_of_not_le hlt⟩
      rcases h with ⟨h1, h2, h3⟩ | ⟨j0, hj0, h1, h2, hg, hlt, hmin, htie⟩
      · refine Or.inl ⟨h1, h2, fun j hj hgj => ?_⟩
        rcases Nat.lt_succ_iff_lt_or_eq.mp hj with hj | hj
        · exact h3 j hj hgj
        · rw [hj, ← h2]
          exact hge (hj ▸ hgj)
      · refine Or.inr ⟨j0, Nat.lt_succ_of_lt hj0, h1, h2, hg, hlt, fun j hj hgj => ?_, htie⟩
        rcases Nat.lt_succ_iff_lt_or_eq.mp hj with hj | hj
        · exact hmin j hj hgj
        · rw [hj, ← h2]
          exact hge (hj ▸ hgj)

theorem scanLoop_inv (b : OrderBook) (i : Nat) (t : String) (p : Price) (n : Nat)
    (hn : n ≤ MAX_ORDERS) : ∃ st, scanLoop b i t p n = some st ∧ ScanInv b i t p n st := by
  induction n with
  | zero => exact ⟨(-1, DBL_MAX), rfl, Or.inl ⟨rfl, rfl, fun j hj => absurd hj (Nat.not_lt_zero j)⟩⟩
  | succ n ih =>
    obtain ⟨st, hst, hinv⟩ := ih (Nat.le_of_succ_le hn)
    obtain ⟨st2, hst2, hinv2⟩ := scanBody_inv b i t p n st hn hinv
    exact ⟨st2, by simp [scanLoop, hst, hst2], hinv2⟩

/-! ## One iteration of the outer loop, slot by slot -/

theorem OrderBook.ext_fields (a b : OrderBook) (hc : a.count = b.count)
    (ho : ∀ k, a.orders k = b.orders k) : a = b := by
  cases a
  cases b
  simp only [OrderBook.mk.injEq]
  exact ⟨hc, funext ho⟩

theorem ite_setMatched_count (b : OrderBook) (k : Nat) (c : Prop) [Decidable c] :
    (if c then b.setMatched k else b).count = b.count := by
  split_ifs <;> rfl

theorem ite_setMatched_orders (b : OrderBook) (k n : Nat) (c : Prop) [Decidable c] :
    (if c then b.setMatched k else b).orders n =
      if n = k then { b.orders k with is_matched := (b.orders k).is_matched || decide c }
      else b.orders n := by
  by_cases hc : c
  · by_cases hn : n = k <;> simp [OrderBook.setMatched, hc, hn]
  · by_cases hn : n = k
    · subst hn
      simp [hc]
    · simp [hc, hn]

theorem applyFill_eq (s : OrderBook) (log : List Fill) (i j : Nat) (hij : j ≠ i)
    (hj : j < MAX_ORDERS) :
    applyFill s log i (s.orders i) (j : Int) (s.orders j).price =
      some (afterFill s i j, log ++ [fillLine s i j]) := by
  have hji : ¬ i = j := fun h => hij h.symm
  unfold applyFill
  rw [Int.toNat_ofNat, read_of_lt s j hj]
  simp only [Option.bind, Option.some.injEq, Prod.mk.injEq]
  constructor
  · apply OrderBook.ext_fields
    · rw [ite_setMatched_count, ite_setMatched_count]
      rfl
    · intro k
      rw [ite_setMatched_orders, ite_setMatched_orders, ite_setMatched_orders]
      by_cases hki : k = i
      · subst hki
        simp [OrderBook.setQuantity, afterFill, matchedQty, hij, hji]
      · by_cases hkj : k = j
        · subst hkj
          simp [OrderBook.setQuantity, afterFill, matchedQty, hki, hji]
        · simp [OrderBook.setQuantity, afterFill, hki, hkj]
  · simp [fillLine, OrderBook.setQuantity, matchedQty, hij, hji]

theorem matchBody_spec (s : OrderBook) (log : List Fill) (count i : Nat) (hi : i < count)
    (hc : count ≤ MAX_ORDERS) :
    (matchBody count (s, log) i = some (s, log) ∧
      ((s.orders i).is_matched = true ∨ (s.orders i).type = OrderType.SELL ∨
        ∀ j, Eligible s count i j → DBL_MAX ≤ (s.orders j).price)) ∨
    (∃ j0, (s.orders i).is_matched = false ∧ (s.orders i).type = OrderType.BUY ∧
      Eligible s count i j0 ∧ (s.orders j0).price < DBL_MAX ∧
      (∀ j, Eligible s count i j → (s.orders j0).price ≤ (s.orders j).price) ∧
      (∀ j, Eligible s count i j → j < j0 → (s.orders j0).price < (s.orders j).price) ∧
      matchBody count (s, log) i = some (afterFill s i j0, log ++ [fillLine s i j0])) := by
  have hiM : i < MAX_ORDERS := Nat.lt_of_lt_of_le hi hc
  unfold matchBody
  rw [read_of_lt s i hiM]
  simp only [Option.bind]
  by_cases hm : (s.orders i).is_matched = true
  · exact Or.inl ⟨by simp [hm], Or.inl hm⟩
  · have hm2 : (s.orders i).is_matched = false := by simpa using hm
    by_cases ht : (s.orders i).type = OrderType.BUY
    · obtain ⟨st, hst, hinv⟩ :=
        scanLoop_inv s i (s.orders i).ticker (s.orders i).price count hc
      rw [if_neg hm, if_pos ht, hst]
      rcases hinv with ⟨h1, _, h3⟩ | ⟨j0, hj0, h1, h2, hg, hlt, hmin, htie⟩
      · refine Or.inl ⟨by simp [h1], Or.inr (Or.inr fun j hj => ?_)⟩
        exact h3 j hj.1 hj.2
      · refine Or.inr ⟨j0, hm2, ht, ⟨hj0, hg⟩, hlt, fun j hj => hmin j hj.1 hj.2,
          fun j hj hlt2 => htie j hlt2 hj.2, ?_⟩
        have hne : ¬ ((j0 : Int) = -1) := by omega
        simp only [h1, h2, ne_eq, hne, not_false_eq_true, if_true]
        exact applyFill_eq s log i j0 hg.1 (Nat.lt_of_lt_of_le hj0 hc)
    · have ht2 : (s.orders i).type = OrderType.SELL := by
        cases hty : (s.orders i).type
        · exact absurd hty ht
        · rfl
      exact Or.inl ⟨by simp [hm, ht], Or.inr (Or.inl ht2)⟩

/-! ## The outer loop -/

theorem matchLoop_succ (b : OrderBook) (count n : Nat) (st : OrderBook × List Fill)
    (h : matchLoop b count n = some st) :
    matchLoop b count (n + 1) = matchBody count st n := by
  simp [matchLoop, h]

/-- Iteration `n` of the outer loop: it starts from a state of the loop, and either
leaves it as it is or fills buy `n` against the sell selected by the scan. -/
theorem matchLoop_iter (b : OrderBook) (count n : Nat) (hc : count ≤ MAX_ORDERS)
    (hn : n < count) :
    ∃ s log, matchLoop b count n = some (s, log) ∧
      ((matchLoop b count (n + 1) = some (s, log) ∧
        ((s.orders n).is_matched = true ∨ (s.orders n).type = OrderType.SELL ∨
          ∀ j, Eligible s count n j → DBL_MAX ≤ (s.orders j).price)) ∨
      (∃ j0, (s.orders n).is_matched = false ∧ (s.orders n).type = OrderType.BUY ∧
        Eligible s count n j0 ∧ (s.orders j0).price < DBL_MAX ∧
        (∀ j, Eligible s count n j → (s.orders j0).price ≤ (s.orders j).price) ∧
        (∀ j, Eligible s count n j → j < j0 → (s.orders j0).price < (s.orders j).price) ∧
        matchLoop b count (n + 1) = some (afterFill s n j0, log ++ [fillLine s n j0]))) := by
  induction n with
  | zero =>
    refine ⟨b, [], rfl, ?_⟩
    rw [matchLoop_succ b count 0 (b, []) rfl]
    exact matchBody_spec b [] count 0 hn hc
  | succ n ih =>
    obtain ⟨s, log, _, hnext⟩ := ih (Nat.lt_of_succ_lt hn)
    rcases hnext with ⟨h1, _⟩ | ⟨j0, _, _, _, _, _, _, h1⟩
    · refine ⟨s, log, h1, ?_⟩
      rw [matchLoop_succ b count (n + 1) (s, log) h1]
      exact matchBody_spec s log count (n + 1) hn hc
    · refine ⟨afterFill s n j0, log ++ [fillLine s n j0], h1, ?_⟩
      rw [matchLoop_succ b count (n + 1) _ h1]
      exact matchBody_spec _ _ count (n + 1) hn hc

/-- The outer loop runs to its end on a book within capacity. -/
theorem matchLoop_total (b : OrderBook) (count n : Nat) (hc : count ≤ MAX_ORDERS)
    (hn : n ≤ count) : ∃ s log, matchLoop b count n = some (s, log) := by
  cases n with
  | zero => exact ⟨b, [], rfl⟩
  | succ n =>
    obtain ⟨s, log, _, hnext⟩ := matchLoop_iter b count n hc hn
    rcases hnext with ⟨h1, _⟩ | ⟨j0, _, _, _, _, _, _, h1⟩
    · exact ⟨_, _, h1⟩
    · exact ⟨_, _, h1⟩

/-- Induction over the outer loop: a property of books kept by every fill of an Open
buy against an eligible sell holds in every state of the loop. -/
theorem matchLoop_induct (b : OrderBook) (count : Nat) (hc : count ≤ MAX_ORDERS)
    (I : OrderBook → Prop) (h0 : I b)
    (hfill : ∀ s i j0, I s → i < count → (s.orders i).is_matched = false →
      (s.orders i).type = OrderType.BUY → Eligible s count i j0 → I (afterFill s i j0))
    (n : Nat) (hn : n ≤ count) (s : OrderBook) (log : List Fill)
    (h : matchLoop b count n = some (s, log)) : I s := by
  induction n generalizing s log with
  | zero =>
    simp only [matchLoop, Option.some.injEq, Prod.mk.injEq] at h
    rw [← h.1]
    exact h0
  | succ n ih =>
    obtain ⟨s0, log0, hs0, hnext⟩ := matchLoop_iter b count n hc hn
    have hI0 : I s0 := ih (Nat.le_of_succ_le hn) s0 log0 hs0
    rcases hnext with ⟨h1, _⟩ | ⟨j0, hm, ht, he, _, _, _, h1⟩
    · rw [h1] at h
      simp only [Option.some.injEq, Prod.mk.injEq] at h
      rw [← h.1]
      exact hI0
    · rw [h1] at h
      simp only [Option.some.injEq, Prod.mk.injEq] at h
      rw [← h.1]
      exact hfill s0 n j0 hI0 hn hm ht he

/-- Every line of the log comes from the iteration of its buy index, and the buy
indices of the log increase strictly. -/
theorem matchLoop_log (b : OrderBook) (count : Nat) (hc : count ≤ MAX_ORDERS)
    (n : Nat) (hn : n ≤ count) (s : OrderBook) (log : List Fill)
    (h : matchLoop b count n = some (s, log)) :
    List.Pairwise (fun x y => x < y) (log.map Fill.buy_index) ∧
      ∀ f, f ∈ log → f.buy_index < n ∧ FillAt b count f := by
  induction n generalizing s log with
  | zero =>
    simp only [matchLoop, Option.some.injEq, Prod.mk.injEq] at h
    rw [← h.2]
    exact ⟨List.Pairwise.nil, fun f hf => absurd hf (List.not_mem_nil f)⟩
  | succ n ih =>
    obtain ⟨s0, log0, hs0, hnext⟩ := matchLoop_iter b count n hc hn
    obtain ⟨hp0, hl0⟩ := ih (Nat.le_of_succ_le hn) s0 log0 hs0
    rcases hnext with ⟨h1, _⟩ | ⟨j0, hm, ht, he, hlt, hmin, htie, h1⟩
    · rw [h1] at h
      simp only [Option.some.injEq, Prod.mk.injEq] at h
      rw [← h.2]
      exact ⟨hp0, fun f hf => ⟨Nat.lt_succ_of_lt (hl0 f hf).1, (hl0 f hf).2⟩⟩
    · rw [h1] at h
      simp only [Option.some.injEq, Prod.mk.injEq] at h
      rw [← h.2]
      constructor
      · rw [List.map_append, List.pairwise_append]
        refine ⟨hp0, List.pairwise_singleton _ _, fun x hx y hy => ?_⟩
        obtain ⟨f, hf, hfx⟩ := List.mem_map.mp hx
        simp only [List.map_cons, List.map_nil, List.mem_singleton] at hy
        rw [hy, ← hfx]
        exact (hl0 f hf).1
      · intro f hf
        rcases List.mem_append.mp hf with hf | hf
        · exact ⟨Nat.lt_succ_of_lt (hl0 f hf).1, (hl0 f hf).2⟩
        · have hfe : f = fillLine s0 n j0 := List.mem_singleton.mp hf
          have hbi : f.buy_index = n := by rw [hfe]; rfl
          refine ⟨by rw [hbi]; exact Nat.lt_succ_self n, s0, log0, j0, ?_⟩
          rw [hbi]
          exact ⟨hn, hs0, hm, ht, he, hlt, hmin, htie, hfe, by rw [hfe]; exact h1⟩

theorem matchOrder_total (b : OrderBook) (hc : b.count ≤ MAX_ORDERS) :
    ∃ s log, matchOrder b = some (s, log) :=
  matchLoop_total b b.count b.count hc (Nat.le_refl _)

/-- Selection rule below the sentinel: when the outer loop reaches an Open Buy at index
`i`, if some eligible sell is priced below `DBL_MAX`, the buy is filled against the
eligible sell of lowest price, the one of smallest index among those of that price; if
no sell is eligible, the iteration changes nothing. -/
theorem matchLoop_selects_best (b : OrderBook) (hc : b.count ≤ MAX_ORDERS) (i : Nat)
    (hi : i < b.count) :
    ∃ s log, matchLoop b b.count i = some (s, log) ∧
      ((s.orders i).is_matched = false → (s.orders i).type = OrderType.BUY →
        ((∃ j, Eligible s b.count i j ∧ (s.orders j).price < DBL_MAX) →
          ∃ j0, Eligible s b.count i j0 ∧
            (∀ j, Eligible s b.count i j → (s.orders j0).price ≤ (s.orders j).price) ∧
            (∀ j, Eligible s b.count i j → (s.orders j).price = (s.orders j0).price →
              j0 ≤ j) ∧
            matchLoop b b.count (i + 1) =
              some (afterFill s i j0, log ++ [fillLine s i j0])) ∧
        ((∀ j, ¬ Eligible s b.count i j) → matchLoop b b.count (i + 1) = some (s, log))) := by
  obtain ⟨s, log, hs, hnext⟩ := matchLoop_iter b b.count i hc hi
  refine ⟨s, log, hs, fun hm ht => ⟨fun hex => ?_, fun hnone => ?_⟩⟩
  · rcases hnext with ⟨_, hno⟩ | ⟨j0, _, _, he, _, hmin, htie, h1⟩
    · obtain ⟨j, hj, hjlt⟩ := hex
      rcases hno with h | h | h
      · rw [hm] at h
        exact Bool.noConfusion h
      · rw [ht] at h
        exact OrderType.noConfusion h
      · exact absurd hjlt (not_lt_of_le (h j hj))
    · refine ⟨j0, he, hmin, fun j hj heq => ?_, h1⟩
      by_contra hlt
      have := htie j hj (Nat.lt_of_not_le hlt)
      rw [heq] at this
      exact lt_irrefl _ this
  · rcases hnext with ⟨h1, _⟩ | ⟨j0, _, _, he, _, _, _, _⟩
    · exact h1
    · exact absurd he (hnone j0)

/-! ## Effect of one fill on the slots -/

theorem matchedQty_eq_min (s : OrderBook) (i j : Nat) :
    matchedQty s i j = min (s.orders i).quantity (s.orders j).quantity := by
  unfold matchedQty
  rw [min_def]
  split_ifs <;> omega

theorem afterFill_buy (s : OrderBook) (i j : Nat) :
    (afterFill s i j).orders i =
      { s.orders i with
        quantity := wrapInt ((s.orders i).quantity - matchedQty s i j)
        is_matched := (s.orders i).is_matched ||
          decide (wrapInt ((s.orders i).quantity - matchedQty s i j) = 0) } := by
  simp [afterFill]

theorem afterFill_sell (s : OrderBook) (i j : Nat) (hji : j ≠ i) :
    (afterFill s i j).orders j =
      { s.orders j with
        quantity := wrapInt ((s.orders j).quantity - matchedQty s i j)
        is_matched := (s.orders j).is_matched ||
          decide (wrapInt ((s.orders j).quantity - matchedQty s i j) = 0) } := by
  simp [afterFill, hji]

theorem afterFill_other (s : OrderBook) (i j k : Nat) (hki : k ≠ i) (hkj : k ≠ j) :
    (afterFill s i j).orders k = s.orders k := by
  simp [afterFill, hki, hkj]

/-- A fill changes only `quantity` and `is_matched`. -/
theorem afterFill_fixed_fields (s : OrderBook) (i j k : Nat) :
    ((afterFill s i j).orders k).type = (s.orders k).type ∧
    ((afterFill s i j).orders k).ticker = (s.orders k).ticker ∧
    ((afterFill s i j).orders k).price = (s.orders k).price ∧
    ((afterFill s i j).orders k).order_id = (s.orders k).order_id := by
  by_cases hki : k = i
  · subst hki
    simp [afterFill]
  · by_cases hkj : k = j
    · subst hkj
      simp [afterFill, hki]
    · simp [afterFill, hki, hkj]

/-- Iterations `n .. m - 1` of the outer loop leave a Buy order at an index outside
`n .. m - 1` as it is. -/
theorem matchLoop_buy_kept (b : OrderBook) (count : Nat) (hc : count ≤ MAX_ORDERS)
    (k n : Nat) (s : OrderBook) (log : List Fill)
    (hs : matchLoop b count n = some (s, log)) (hty : (s.orders k).type = OrderType.BUY)
    (m : Nat) (hnm : n ≤ m) (hm : m ≤ count) (hk : k < n ∨ m ≤ k)
    (s2 : OrderBook) (log2 : List Fill) (hs2 : matchLoop b count m = some (s2, log2)) :
    s2.orders k = s.orders k := by
  induction m generalizing s2 log2 with
  | zero =>
    have hn0 : n = 0 := Nat.le_zero.mp hnm
    subst hn0
    rw [hs] at hs2
    simp only [Option.some.injEq, Prod.mk.injEq] at hs2
    rw [← hs2.1]
  | succ m ih =>
    rcases Nat.lt_or_ge n (m + 1) with hlt | hge
    · have hnm2 : n ≤ m := Nat.le_of_lt_succ hlt
      have hk2 : k < n ∨ m ≤ k := by omega
      have hkm : k ≠ m := by omega
      obtain ⟨s0, log0, hs0, hnext⟩ := matchLoop_iter b count m hc hm
      have h0 : s0.orders k = s.orders k := ih hnm2 (Nat.le_of_succ_le hm) hk2 s0 log0 hs0
      rcases hnext with ⟨h1, _⟩ | ⟨j0, _, _, he, _, _, _, h1⟩
      · rw [h1] at hs2
        simp only [Option.some.injEq, Prod.mk.injEq] at hs2
        rw [← hs2.1, h0]
      · rw [h1] at hs2
        simp only [Option.some.injEq, Prod.mk.injEq] at hs2
        have hkj : k ≠ j0 := by
          intro hkj
          have hsell := he.2.2.2.1
          rw [← hkj, h0, hty] at hsell
          exact OrderType.noConfusion hsell
        rw [← hs2.1, afterFill_other s0 m j0 k hkm hkj, h0]
    · have hnm3 : n = m + 1 := Nat.le_antisymm hnm hge
      subst hnm3
      rw [hs] at hs2
      simp only [Option.some.injEq, Prod.mk.injEq] at hs2
      rw [← hs2.1]

theorem matchLoop_count (b : OrderBook) (count : Nat) (hc : count ≤ MAX_ORDERS)
    (n : Nat) (hn : n ≤ count) (s : OrderBook) (log : List Fill)
    (h : matchLoop b count n = some (s, log)) : s.count = b.count :=
  matchLoop_induct b count hc (fun s => s.count = b.count) rfl
    (fun _ _ _ hI _ _ _ _ => hI) n hn s log h

/-! ## Quantities are values of type `int` -/

theorem wrapInt_range (x : Int) : INT_MIN ≤ wrapInt x ∧ wrapInt x ≤ INT_MAX := by
  unfold INT_MIN INT_MAX wrapInt
  omega

theorem order_book_intQuantities : order_book.IntQuantities := by
  intro k
  simp [order_book, zeroOrder, INT_MIN, INT_MAX]

theorem addOrder_intQuantities (b : OrderBook) (type : OrderType) (ticker : String)
    (quantity : Int) (price : Price) (hb : b.IntQuantities) (h1 : INT_MIN ≤ quantity)
    (h2 : quantity ≤ INT_MAX) : (addOrder b type ticker quantity price).1.IntQuantities := by
  intro k
  by_cases ht : ticker.length ≥ MAX_TICKER_LENGTH
  · rw [addOrder_ticker_too_long b type ticker quantity price ht]
    exact hb k
  · by_cases hfull : b.count ≥ MAX_ORDERS
    · rw [addOrder_book_full b type ticker quantity price (Nat.lt_of_not_le ht) hfull]
      exact hb k
    · rw [addOrder_accepted b type ticker quantity price (Nat.lt_of_not_le ht)
        (Nat.lt_of_not_le hfull)]
      by_cases hk : k = b.count
      · simp [hk, h1, h2]
      · simp only [hk, if_false]
        exact hb k

theorem afterFill_intQuantities (s : OrderBook) (i j : Nat) (hs : s.IntQuantities) :
    (afterFill s i j).IntQuantities := by
  intro k
  by_cases hki : k = i
  · subst hki
    rw [afterFill_buy]
    exact wrapInt_range _
  · by_cases hkj : k = j
    · subst hkj
      rw [afterFill_sell s i k hki]
      exact wrapInt_range _
    · rw [afterFill_other s i j k hki hkj]
      exact hs k

theorem matchLoop_intQuantities (b : OrderBook) (count : Nat) (hc : count ≤ MAX_ORDERS)
    (hb : b.IntQuantities) (n : Nat) (hn : n ≤ count) (s : OrderBook) (log : List Fill)
    (h : matchLoop b count n = some (s, log)) : s.IntQuantities :=
  matchLoop_induct b count hc (fun s => s.IntQuantities) hb
    (fun s i j0 hI _ _ _ _ => afterFill_intQuantities s i j0 hI) n hn s log h

/-! ## Runs -/

/-- Induction over a run: a property of run states kept by every admissible call
holds after any sequence of admissible calls, and the run does not fail. -/
theorem runCalls_invariant (P : Call → Prop) (I : Run → Prop)
    (hstep : ∀ r c, I r → P c → ∃ r2, r.call c = some r2 ∧ I r2)
    (calls : List Call) (r : Run) (hr : I r) (hP : ∀ c, c ∈ calls → P c) :
    ∃ r2, runCalls r calls = some r2 ∧ I r2 := by
  induction calls generalizing r with
  | nil => exact ⟨r, rfl, hr⟩
  | cons c cs ih =>
    obtain ⟨r1, h1, hI1⟩ := hstep r c hr (hP c (List.mem_cons_self c cs))
    obtain ⟨r2, h2, hI2⟩ := ih r1 hI1 (fun d hd => hP d (List.mem_cons_of_mem c hd))
    exact ⟨r2, by simp [runCalls, h1, h2], hI2⟩

/-- A `matchOrder` call in a run: it returns on a book within capacity, and the run
goes on with the book it leaves. -/
theorem Run.call_matchOrder (r : Run) (hc : r.book.count ≤ MAX_ORDERS) :
    ∃ b2 fills, matchOrder r.book = some (b2, fills) ∧
      r.call Call.matchOrder = some { r with book := b2 } := by
  obtain ⟨b2, fills, h⟩ := matchOrder_total r.book hc
  exact ⟨b2, fills, h, by simp [Run.call, h]⟩

theorem addOrder_count_le (b : OrderBook) (type : OrderType) (ticker : String)
    (quantity : Int) (price : Price) (hc : b.count ≤ MAX_ORDERS) :
    (addOrder b type ticker quantity price).1.count ≤ MAX_ORDERS ∧
    b.count ≤ (addOrder b type ticker quantity price).1.count := by
  by_cases ht : ticker.length ≥ MAX_TICKER_LENGTH
  · rw [addOrder_ticker_too_long b type ticker quantity price ht]
    exact ⟨hc, Nat.le_refl _⟩
  · by_cases hfull : b.count ≥ MAX_ORDERS
    · rw [addOrder_book_full b type ticker quantity price (Nat.lt_of_not_le ht) hfull]
      exact ⟨hc, Nat.le_refl _⟩
    · rw [addOrder_accepted b type ticker quantity price (Nat.lt_of_not_le ht)
        (Nat.lt_of_not_le hfull)]
      exact ⟨Nat.lt_of_not_le hfull, Nat.le_succ _⟩

/-- The call `addOrder` leaves every slot other than the one at the old `count` as it is. -/
theorem addOrder_other_slots (b : OrderBook) (type : OrderType) (ticker : String)
    (quantity : Int) (price : Price) (k : Nat) (hk : k ≠ b.count) :
    (addOrder b type ticker quantity price).1.orders k = b.orders k := by
  by_cases ht : ticker.length ≥ MAX_TICKER_LENGTH
  · rw [addOrder_ticker_too_long b type ticker quantity price ht]
  · by_cases hfull : b.count ≥ MAX_ORDERS
    · rw [addOrder_book_full b type ticker quantity price (Nat.lt_of_not_le ht) hfull]
    · rw [addOrder_accepted b type ticker quantity price (Nat.lt_of_not_le ht)
        (Nat.lt_of_not_le hfull)]
      simp only [hk, if_false]

/-- A fill of two Open orders keeps "Filled exactly when the quantity is 0" at every slot. -/
theorem afterFill_flag_iff (s : OrderBook) (i j k : Nat) (hji : j ≠ i)
    (hmi : (s.orders i).is_matched = false) (hmj : (s.orders j).is_matched = false)
    (hk : (s.orders k).is_matched = true ↔ (s.orders k).quantity = 0) :
    ((afterFill s i j).orders k).is_matched = true ↔
      ((afterFill s i j).orders k).quantity = 0 := by
  by_cases hki : k = i
  · subst hki
    rw [afterFill_buy]
    simp [hmi]
  · by_cases hkj : k = j
    · subst hkj
      rw [afterFill_sell s i k hki]
      simp [hmj]
    · rw [afterFill_other s i j k hki hkj]
      exact hk

theorem matchLoop_flag_iff (b : OrderBook) (count : Nat) (hc : count ≤ MAX_ORDERS)
    (hb : ∀ k, k < count → ((b.orders k).is_matched = true ↔ (b.orders k).quantity = 0))
    (n : Nat) (hn : n ≤ count) (s : OrderBook) (log : List Fill)
    (h : matchLoop b count n = some (s, log)) :
    ∀ k, k < count → ((s.orders k).is_matched = true ↔ (s.orders k).quantity = 0) :=
  matchLoop_induct b count hc
    (fun s => ∀ k, k < count → ((s.orders k).is_matched = true ↔ (s.orders k).quantity = 0))
    hb
    (fun s i j0 hI _ hm _ he k hk =>
      afterFill_flag_iff s i j0 k he.2.1 hm he.2.2.1 (hI k hk))
    n hn s log h

/-- A fill of two orders with quantities in `0 .. INT_MAX` lowers no quantity below 0
and raises none. -/
theorem afterFill_quantity_le (s : OrderBook) (i j k : Nat) (hji : j ≠ i)
    (hi : 0 ≤ (s.orders i).quantity ∧ (s.orders i).quantity ≤ INT_MAX)
    (hj : 0 ≤ (s.orders j).quantity ∧ (s.orders j).quantity ≤ INT_MAX) :
    ((afterFill s i j).orders k).quantity ≤ (s.orders k).quantity ∧
    (0 ≤ (s.orders k).quantity → 0 ≤ ((afterFill s i j).orders k).quantity) := by
  have hm := matchedQty_eq_min s i j
  have hm1 : matchedQty s i j ≤ (s.orders i).quantity := by rw [hm]; exact min_le_left _ _
  have hm2 : matchedQty s i j ≤ (s.orders j).quantity := by rw [hm]; exact min_le_right _ _
  have hm0 : 0 ≤ matchedQty s i j := by rw [hm]; exact le_min hi.1 hj.1
  by_cases hki : k = i
  · subst hki
    rw [afterFill_buy]
    have hw := wrapInt_of_range ((s.orders k).quantity - matchedQty s k j)
      (by unfold INT_MIN; omega) (by omega)
    simp only [hw]
    omega
  · by_cases hkj : k = j
    · subst hkj
      rw [afterFill_sell s i k hki]
      have hw := wrapInt_of_range ((s.orders k).quantity - matchedQty s i k)
        (by unfold INT_MIN; omega) (by omega)
      simp only [hw]
      omega
    · rw [afterFill_other s i j k hki hkj]
      exact ⟨le_refl _, fun h => h⟩

theorem matchLoop_quantity_le (b : OrderBook) (count : Nat) (hc : count ≤ MAX_ORDERS)
    (hb : ∀ k, k < count → 0 ≤ (b.orders k).quantity ∧ (b.orders k).quantity ≤ INT_MAX)
    (n : Nat) (hn : n ≤ count) (s : OrderBook) (log : List Fill)
    (h : matchLoop b count n = some (s, log)) :
    (∀ k, k < count → 0 ≤ (s.orders k).quantity ∧ (s.orders k).quantity ≤ INT_MAX) ∧
    ∀ k, (s.orders k).quantity ≤ (b.orders k).quantity :=
  matchLoop_induct b count hc
    (fun s =>
      (∀ k, k < count → 0 ≤ (s.orders k).quantity ∧ (s.orders k).quantity ≤ INT_MAX) ∧
      ∀ k, (s.orders k).quantity ≤ (b.orders k).quantity)
    ⟨hb, fun _ => le_refl _⟩
    (fun s i j0 hI hi _ _ he =>
      ⟨fun k hk =>
        ⟨(afterFill_quantity_le s i j0 k he.2.1 (hI.1 i hi) (hI.1 j0 he.1)).2 (hI.1 k hk).1,
          le_trans (afterFill_quantity_le s i j0 k he.2.1 (hI.1 i hi) (hI.1 j0 he.1)).1
            (hI.1 k hk).2⟩,
        fun k =>
          le_trans (afterFill_quantity_le s i j0 k he.2.1 (hI.1 i hi) (hI.1 j0 he.1)).1
            (hI.2 k)⟩)
    n hn s log h

/-- An `addOrder` call of a run that is rejected: the book is kept, `-1` is returned. -/
theorem Run.call_addOrder_rejected (r : Run) (type : OrderType) (ticker : String)
    (quantity : Int) (price : Price)
    (h : ticker.length ≥ MAX_TICKER_LENGTH ∨ r.book.count ≥ MAX_ORDERS) :
    r.call (Call.addOrder type ticker quantity price) =
      some { book := r.book, returns := r.returns ++ [-1], accepted := r.accepted } := by
  have hadd : addOrder r.book type ticker quantity price = (r.book, -1) := by
    by_cases ht : ticker.length ≥ MAX_TICKER_LENGTH
    · exact addOrder_ticker_too_long r.book type ticker quantity price ht
    · rcases h with h | h
      · exact absurd h ht
      · exact addOrder_book_full r.book type ticker quantity price (Nat.lt_of_not_le ht) h
  simp [Run.call, hadd]

/-- An `addOrder` call of a run that is accepted: the order is written to the slot at
the old `count`, which is the id returned. -/
theorem Run.call_addOrder_accepted (r : Run) (type : OrderType) (ticker : String)
    (quantity : Int) (price : Price) (ht : ticker.length < MAX_TICKER_LENGTH)
    (hroom : r.book.count < MAX_ORDERS) :
    r.call (Call.addOrder type ticker quantity price) =
      some
        { book :=
            { count := r.book.count + 1
              orders := fun n =>
                if n = r.book.count then
                  { type := type, ticker := ticker, quantity := quantity, price := price,
                    order_id := (r.book.count : Int), is_matched := false }
                else r.book.orders n }
          returns := r.returns ++ [(r.book.count : Int)]
          accepted := r.accepted ++ [((r.book.count : Int), quantity)] } := by
  have hne : ¬ ((r.book.count : Int) = -1) := by omega
  simp [Run.call, addOrder_accepted r.book type ticker quantity price ht hroom, hne]

/-- The outer loop leaves a Filled order as it is. -/
theorem matchLoop_filled_kept (b : OrderBook) (count : Nat) (hc : count ≤ MAX_ORDERS)
    (k : Nat) (hf : (b.orders k).is_matched = true)
    (n : Nat) (hn : n ≤ count) (s : OrderBook) (log : List Fill)
    (h : matchLoop b count n = some (s, log)) : s.orders k = b.orders k :=
  matchLoop_induct b count hc (fun s => s.orders k = b.orders k) rfl
    (fun s i j0 hI _ hm _ he => by
      have hIk : s.orders k = b.orders k := hI
      have hki : k ≠ i := by
        intro hki
        rw [← hki, hIk, hf] at hm
        exact Bool.noConfusion hm
      have hkj : k ≠ j0 := by
        intro hkj
        have hmj := he.2.2.1
        rw [← hkj, hIk, hf] at hmj
        exact Bool.noConfusion hmj
      show (afterFill s i j0).orders k = b.orders k
      rw [afterFill_other s i j0 k hki hkj]
      exact hIk)
    n hn s log h

/-- The outer loop changes neither `type`, `ticker`, `price` nor `order_id` of a slot. -/
theorem matchLoop_fixed_fields (b : OrderBook) (count : Nat) (hc : count ≤ MAX_ORDERS)
    (n : Nat) (hn : n ≤ count) (s : OrderBook) (log : List Fill)
    (h : matchLoop b count n = some (s, log)) :
    ∀ k, (s.orders k).type = (b.orders k).type ∧ (s.orders k).ticker = (b.orders k).ticker ∧
      (s.orders k).price = (b.orders k).price ∧
      (s.orders k).order_id = (b.orders k).order_id :=
  matchLoop_induct b count hc
    (fun s => ∀ k, (s.orders k).type = (b.orders k).type ∧
      (s.orders k).ticker = (b.orders k).ticker ∧ (s.orders k).price = (b.orders k).price ∧
      (s.orders k).order_id = (b.orders k).order_id)
    (fun _ => ⟨rfl, rfl, rfl, rfl⟩)
    (fun s i j0 hI _ _ _ _ k => by
      obtain ⟨h1, h2, h3, h4⟩ := afterFill_fixed_fields s i j0 k
      obtain ⟨g1, g2, g3, g4⟩ := hI k
      exact ⟨h1.trans g1, h2.trans g2, h3.trans g3, h4.trans g4⟩)
    n hn s log h

/-! ## Capacity -/

/-- A run records one returned value per `addOrder` attempt. -/
theorem runCalls_returns_length (calls : List Call) (r r2 : Run)
    (h : runCalls r calls = some r2) :
    r2.returns.length = r.returns.length + attempts calls := by
  induction calls generalizing r with
  | nil =>
    simp only [runCalls, Option.some.injEq] at h
    rw [← h]
    rfl
  | cons c cs ih =>
    cases c with
    | addOrder type ticker quantity price =>
      simp only [runCalls, Run.call, Option.bind] at h
      rw [ih _ h]
      simp only [List.length_append, List.length_singleton, attempts]
      omega
    | matchOrder =>
      simp only [runCalls, Run.call] at h
      cases hm : matchOrder r.book with
      | none =>
        rw [hm] at h
        exact Option.noConfusion h
      | some res =>
        rw [hm] at h
        simp only [Option.map, Option.bind] at h
        rw [ih _ h]
        rfl

theorem successIds_append_rejected (returns : List Int) :
    successIds (returns ++ [-1]) = successIds returns := by
  simp [successIds, List.filter_append]

theorem successIds_append_accepted (returns : List Int) (n : Nat) :
    successIds (returns ++ [(n : Int)]) = successIds returns ++ [(n : Int)] := by
  have hne : ¬ ((n : Int) = -1) := by omega
  simp [successIds, List.filter_append, hne]

/-! ## Totals per side and ticker -/

theorem sumBelow_congr (f g : Nat → Int) (n : Nat) (h : ∀ k, k < n → g k = f k) :
    sumBelow g n = sumBelow f n := by
  induction n with
  | zero => rfl
  | succ n ih =>
    simp only [sumBelow]
    rw [ih (fun k hk => h k (Nat.lt_succ_of_lt hk)), h n (Nat.lt_succ_self n)]

theorem sumBelow_update (f g : Nat → Int) (n i : Nat) (hi : i < n)
    (h : ∀ k, k < n → k ≠ i → g k = f k) :
    sumBelow g n = sumBelow f n + (g i - f i) := by
  induction n with
  | zero => exact absurd hi (Nat.not_lt_zero i)
  | succ n ih =>
    simp only [sumBelow]
    rcases Nat.lt_succ_iff_lt_or_eq.mp hi with hlt | heq
    · rw [ih hlt (fun k hk hne => h k (Nat.lt_succ_of_lt hk) hne),
        h n (Nat.lt_succ_self n) (Nat.ne_of_gt hlt)]
      omega
    · subst heq
      rw [sumBelow_congr f g i (fun k hk => h k (Nat.lt_succ_of_lt hk) (Nat.ne_of_lt hk))]
      omega

/-- A fill of buy `i` against sell `j` changes the Buy total of a ticker by the change
of the quantity of order `i`, when that is the ticker of order `i`, and not otherwise. -/
theorem afterFill_buy_total (s : OrderBook) (i j n : Nat) (t : String) (hi : i < n)
    (hji : j ≠ i) (hsell : (s.orders j).type = OrderType.SELL) :
    sumBelow (sideQuantity (afterFill s i j) OrderType.BUY t) n =
      sumBelow (sideQuantity s OrderType.BUY t) n +
        (sideQuantity (afterFill s i j) OrderType.BUY t i - sideQuantity s OrderType.BUY t i) := by
  apply sumBelow_update _ _ n i hi
  intro k _ hki
  by_cases hkj : k = j
  · subst hkj
    unfold sideQuantity
    rw [(afterFill_fixed_fields s i k k).1, hsell]
    simp
  · unfold sideQuantity
    rw [afterFill_other s i j k hki hkj]

/-- A fill of buy `i` against sell `j` changes the Sell total of a ticker by the change
of the quantity of order `j`, when that is the ticker of order `j`, and not otherwise. -/
theorem afterFill_sell_total (s : OrderBook) (i j n : Nat) (t : String) (hj : j < n)
    (hji : j ≠ i) (hbuy : (s.orders i).type = OrderType.BUY) :
    sumBelow (sideQuantity (afterFill s i j) OrderType.SELL t) n =
      sumBelow (sideQuantity s OrderType.SELL t) n +
        (sideQuantity (afterFill s i j) OrderType.SELL t j -
          sideQuantity s OrderType.SELL t j) := by
  apply sumBelow_update _ _ n j hj
  intro k _ hkj
  by_cases hki : k = i
  · subst hki
    unfold sideQuantity
    rw [(afterFill_fixed_fields s k j k).1, hbuy]
    simp
  · unfold sideQuantity
    rw [afterFill_other s i j k hki hkj]

theorem afterFill_buy_delta (s : OrderBook) (i j : Nat) (t : String)
    (hbuy : (s.orders i).type = OrderType.BUY) :
    sideQuantity (afterFill s i j) OrderType.BUY t i - sideQuantity s OrderType.BUY t i =
      if (s.orders i).ticker = t then
        wrapInt ((s.orders i).quantity - matchedQty s i j) - (s.orders i).quantity
      else 0 := by
  unfold sideQuantity
  rw [afterFill_buy]
  by_cases ht : (s.orders i).ticker = t <;> simp [hbuy, ht]

theorem afterFill_sell_delta (s : OrderBook) (i j : Nat) (t : String) (hji : j ≠ i)
    (hsell : (s.orders j).type = OrderType.SELL) :
    sideQuantity (afterFill s i j) OrderType.SELL t j - sideQuantity s OrderType.SELL t j =
      if (s.orders j).ticker = t then
        wrapInt ((s.orders j).quantity - matchedQty s i j) - (s.orders j).quantity
      else 0 := by
  unfold sideQuantity
  rw [afterFill_sell s i j hji]
  by_cases ht : (s.orders j).ticker = t <;> simp [hsell, ht]

/-- Over the outer loop, the decrease of the Buy total and the decrease of the Sell
total of a ticker differ by a multiple of `2^32`, and are equal when the quantities of
the book are within `0 .. INT_MAX`. -/
theorem matchLoop_totals (b : OrderBook) (count : Nat) (hc : count ≤ MAX_ORDERS)
    (t : String) (n : Nat) (hn : n ≤ count) (s : OrderBook) (log : List Fill)
    (h : matchLoop b count n = some (s, log)) :
    (4294967296 : Int) ∣
      ((sumBelow (sideQuantity b OrderType.BUY t) count -
          sumBelow (sideQuantity s OrderType.BUY t) count) -
        (sumBelow (sideQuantity b OrderType.SELL t) count -
          sumBelow (sideQuantity s OrderType.SELL t) count)) ∧
    ((∀ k, k < count → 0 ≤ (b.orders k).quantity ∧ (b.orders k).quantity ≤ INT_MAX) →
      (∀ k, k < count → 0 ≤ (s.orders k).quantity ∧ (s.orders k).quantity ≤ INT_MAX) ∧
      sumBelow (sideQuantity b OrderType.BUY t) count -
          sumBelow (sideQuantity s OrderType.BUY t) count =
        sumBelow (sideQuantity b OrderType.SELL t) count -
          sumBelow (sideQuantity s OrderType.SELL t) count) :=
  matchLoop_induct b count hc
    (fun s =>
      (4294967296 : Int) ∣
        ((sumBelow (sideQuantity b OrderType.BUY t) count -
            sumBelow (sideQuantity s OrderType.BUY t) count) -
          (sumBelow (sideQuantity b OrderType.SELL t) count -
            sumBelow (sideQuantity s OrderType.SELL t) count)) ∧
      ((∀ k, k < count → 0 ≤ (b.orders k).quantity ∧ (b.orders k).quantity ≤ INT_MAX) →
        (∀ k, k < count → 0 ≤ (s.orders k).quantity ∧ (s.orders k).quantity ≤ INT_MAX) ∧
        sumBelow (sideQuantity b OrderType.BUY t) count -
            sumBelow (sideQuantity s OrderType.BUY t) count =
          sumBelow (sideQuantity b OrderType.SELL t) count -
            sumBelow (sideQuantity s OrderType.SELL t) count))
    ⟨by simp, fun hb => ⟨hb, by simp⟩⟩
    (fun s i j0 hI hi _ hbuy he => by
      obtain ⟨hdvd, hexact⟩ := hI
      have hB := afterFill_buy_total s i j0 count t hi he.2.1 he.2.2.2.1
      have hS := afterFill_sell_total s i j0 count t he.1 he.2.1 hbuy
      rw [afterFill_buy_delta s i j0 t hbuy] at hB
      rw [afterFill_sell_delta s i j0 t he.2.1 he.2.2.2.1, he.2.2.2.2.1] at hS
      constructor
      · show (4294967296 : Int) ∣ _
        rw [hB, hS]
        by_cases ht : (s.orders i).ticker = t
        · simp only [ht, if_true]
          unfold wrapInt
          omega
        · simp only [ht, if_false]
          omega
      · intro hb
        obtain ⟨hrange, heq⟩ := hexact hb
        have hqi := hrange i hi
        have hqj := hrange j0 he.1
        refine ⟨fun k hk => ?_, ?_⟩
        · have hle := afterFill_quantity_le s i j0 k he.2.1 hqi hqj
          exact ⟨hle.2 (hrange k hk).1, le_trans hle.1 (hrange k hk).2⟩
        · show _ = _
          rw [hB, hS]
          have hm := matchedQty_eq_min s i j0
          have hm1 : matchedQty s i j0 ≤ (s.orders i).quantity := by
            rw [hm]; exact min_le_left _ _
          have hm2 : matchedQty s i j0 ≤ (s.orders j0).quantity := by
            rw [hm]; exact min_le_right _ _
          have hm0 : 0 ≤ matchedQty s i j0 := by rw [hm]; exact le_min hqi.1 hqj.1
          have hwi := wrapInt_of_range ((s.orders i).quantity - matchedQty s i j0)
            (by unfold INT_MIN; omega) (by omega)
          have hwj := wrapInt_of_range ((s.orders j0).quantity - matchedQty s i j0)
            (by unfold INT_MIN; omega) (by omega)
          rw [hwi, hwj]
          by_cases ht : (s.orders i).ticker = t
          · simp only [ht, if_true]
            omega
          · simp only [ht, if_false]
            omega)
    n hn s log h

/-! ## Open orders and repeated passes -/

theorem openCount_le (s s2 : OrderBook) (n : Nat)
    (h : ∀ k, k < n → (s.orders k).is_matched = true → (s2.orders k).is_matched = true) :
    openCount s2 n ≤ openCount s n := by
  induction n with
  | zero => exact Nat.le_refl _
  | succ n ih =>
    have ih2 := ih (fun k hk => h k (Nat.lt_succ_of_lt hk))
    have hn := h n (Nat.lt_succ_self n)
    simp only [openCount]
    cases hs : (s.orders n).is_matched
    · cases hs2 : (s2.orders n).is_matched <;> simp <;> omega
    · rw [hn hs]
      simp
      exact ih2

theorem openCount_lt (s s2 : OrderBook) (n i : Nat) (hi : i < n)
    (h : ∀ k, k < n → (s.orders k).is_matched = true → (s2.orders k).is_matched = true)
    (hopen : (s.orders i).is_matched = false) (hfilled : (s2.orders i).is_matched = true) :
    openCount s2 n + 1 ≤ openCount s n := by
  induction n with
  | zero => exact absurd hi (Nat.not_lt_zero i)
  | succ n ih =>
    have hmono : ∀ k, k < n → (s.orders k).is_matched = true →
        (s2.orders k).is_matched = true := fun k hk => h k (Nat.lt_succ_of_lt hk)
    simp only [openCount]
    rcases Nat.lt_succ_iff_lt_or_eq.mp hi with hlt | heq
    · have ih2 := ih hlt hmono
      have hn := h n (Nat.lt_succ_self n)
      cases hs : (s.orders n).is_matched
      · cases hs2 : (s2.orders n).is_matched <;> simp <;> omega
      · rw [hn hs]
        simp
        exact ih2
    · subst heq
      have hle := openCount_le s s2 i hmono
      rw [hopen, hfilled]
      simp
      omega

/-- Induction over the outer loop on the book together with the log. -/
theorem matchLoop_induct_log (b : OrderBook) (count : Nat) (hc : count ≤ MAX_ORDERS)
    (I : OrderBook → List Fill → Prop) (h0 : I b [])
    (hfill : ∀ s log i j0, I s log → i < count → (s.orders i).is_matched = false →
      (s.orders i).type = OrderType.BUY → Eligible s count i j0 →
      I (afterFill s i j0) (log ++ [fillLine s i j0]))
    (n : Nat) (hn : n ≤ count) (s : OrderBook) (log : List Fill)
    (h : matchLoop b count n = some (s, log)) : I s log := by
  induction n generalizing s log with
  | zero =>
    simp only [matchLoop, Option.some.injEq, Prod.mk.injEq] at h
    rw [← h.1, ← h.2]
    exact h0
  | succ n ih =>
    obtain ⟨s0, log0, hs0, hnext⟩ := matchLoop_iter b count n hc hn
    have hI0 : I s0 log0 := ih (Nat.le_of_succ_le hn) s0 log0 hs0
    rcases hnext with ⟨h1, _⟩ | ⟨j0, hm, ht, he, _, _, _, h1⟩
    · rw [h1] at h
      simp only [Option.some.injEq, Prod.mk.injEq] at h
      rw [← h.1, ← h.2]
      exact hI0
    · rw [h1] at h
      simp only [Option.some.injEq, Prod.mk.injEq] at h
      rw [← h.1, ← h.2]
      exact hfill s0 log0 n j0 hI0 hn hm ht he

/-- A pass that prints no `MATCH` line leaves the book as it is. -/
theorem matchLoop_no_fill_unchanged (b : OrderBook) (count : Nat) (hc : count ≤ MAX_ORDERS)
    (n : Nat) (hn : n ≤ count) (s : OrderBook) (log : List Fill)
    (h : matchLoop b count n = some (s, log)) (hlog : log = []) : s = b :=
  matchLoop_induct_log b count hc (fun s log => log = [] → s = b) (fun _ => rfl)
    (fun _ log _ _ _ _ _ _ _ hnil => absurd hnil (List.append_ne_nil_of_right_ne_nil log
      (List.cons_ne_nil _ _)))
    n hn s log h hlog

/-- A fill of two Open orders of a book whose orders have quantities within
`0 .. INT_MAX` and are Filled exactly at quantity 0: the matched quantity is positive,
one of the two orders becomes Filled, no Filled order becomes Open, and the book keeps
these properties. -/
theorem afterFill_sound (s : OrderBook) (count i j : Nat)
    (hS : ∀ k, k < count →
      ((s.orders k).is_matched = true ↔ (s.orders k).quantity = 0) ∧
      0 ≤ (s.orders k).quantity ∧ (s.orders k).quantity ≤ INT_MAX)
    (hi : i < count) (hj : j < count) (hji : j ≠ i)
    (hmi : (s.orders i).is_matched = false) (hmj : (s.orders j).is_matched = false) :
    0 < matchedQty s i j ∧
    (((afterFill s i j).orders i).is_matched = true ∨
      ((afterFill s i j).orders j).is_matched = true) ∧
    (∀ k, (s.orders k).is_matched = true → ((afterFill s i j).orders k).is_matched = true) ∧
    (∀ k, k < count →
      (((afterFill s i j).orders k).is_matched = true ↔
        ((afterFill s i j).orders k).quantity = 0) ∧
      0 ≤ ((afterFill s i j).orders k).quantity ∧
      ((afterFill s i j).orders k).quantity ≤ INT_MAX) := by
  obtain ⟨hfi, hi0, hi1⟩ := hS i hi
  obtain ⟨hfj, hj0, hj1⟩ := hS j hj
  have hqi : 0 < (s.orders i).quantity := by
    rcases lt_or_eq_of_le hi0 with h | h
    · exact h
    · have := hfi.mpr h.symm
      rw [hmi] at this
      exact Bool.noConfusion this
  have hqj : 0 < (s.orders j).quantity := by
    rcases lt_or_eq_of_le hj0 with h | h
    · exact h
    · have := hfj.mpr h.symm
      rw [hmj] at this
      exact Bool.noConfusion this
  have hm := matchedQty_eq_min s i j
  have hm1 : matchedQty s i j ≤ (s.orders i).quantity := by rw [hm]; exact min_le_left _ _
  have hm2 : matchedQty s i j ≤ (s.orders j).quantity := by rw [hm]; exact min_le_right _ _
  have hmpos : 0 < matchedQty s i j := by rw [hm]; exact lt_min hqi hqj
  have hwi := wrapInt_of_range ((s.orders i).quantity - matchedQty s i j)
    (by unfold INT_MIN; omega) (by omega)
  have hwj := wrapInt_of_range ((s.orders j).quantity - matchedQty s i j)
    (by unfold INT_MIN; omega) (by omega)
  refine ⟨hmpos, ?_, ?_, ?_⟩
  · rw [afterFill_buy, afterFill_sell s i j hji, hwi, hwj]
    by_cases hlt : (s.orders i).quantity < (s.orders j).quantity
    · left
      simp [matchedQty, hlt]
    · right
      simp [matchedQty, hlt]
  · intro k hk
    by_cases hki : k = i
    · subst hki
      rw [hmi] at hk
      exact Bool.noConfusion hk
    · by_cases hkj : k = j
      · subst hkj
        rw [hmj] at hk
        exact Bool.noConfusion hk
      · rw [afterFill_other s i j k hki hkj]
        exact hk
  · intro k hk
    obtain ⟨hfk, hk0, hk1⟩ := hS k hk
    have hle := afterFill_quantity_le s i j k hji ⟨hi0, hi1⟩ ⟨hj0, hj1⟩
    exact ⟨afterFill_flag_iff s i j k hji hmi hmj hfk, hle.2 hk0, le_trans hle.1 hk1⟩

/-- A pass over a sound book keeps it sound, and the number of Open orders falls by at
least the number of `MATCH` lines. -/
theorem matchLoop_sound (b : OrderBook) (count : Nat) (hc : count ≤ MAX_ORDERS)
    (hS : ∀ k, k < count →
      ((b.orders k).is_matched = true ↔ (b.orders k).quantity = 0) ∧
      0 ≤ (b.orders k).quantity ∧ (b.orders k).quantity ≤ INT_MAX)
    (n : Nat) (hn : n ≤ count) (s : OrderBook) (log : List Fill)
    (h : matchLoop b count n = some (s, log)) :
    (∀ k, k < count →
      ((s.orders k).is_matched = true ↔ (s.orders k).quantity = 0) ∧
      0 ≤ (s.orders k).quantity ∧ (s.orders k).quantity ≤ INT_MAX) ∧
    openCount s count + log.length ≤ openCount b count :=
  matchLoop_induct_log b count hc
    (fun s log =>
      (∀ k, k < count →
        ((s.orders k).is_matched = true ↔ (s.orders k).quantity = 0) ∧
        0 ≤ (s.orders k).quantity ∧ (s.orders k).quantity ≤ INT_MAX) ∧
      openCount s count + log.length ≤ openCount b count)
    ⟨hS, Nat.le_refl _⟩
    (fun s log i j0 hI hi hm _ he => by
      obtain ⟨hSs, hcnt⟩ := hI
      obtain ⟨_, hone, hmono, hS2⟩ := afterFill_sound s count i j0 hSs hi he.1 he.2.1 hm he.2.2.1
      refine ⟨hS2, ?_⟩
      have hdrop : openCount (afterFill s i j0) count + 1 ≤ openCount s count := by
        rcases hone with h1 | h1
        · exact openCount_lt s (afterFill s i j0) count i hi (fun k _ => hmono k) hm h1
        · exact openCount_lt s (afterFill s i j0) count j0 he.1 (fun k _ => hmono k)
            he.2.2.1 h1
      simp only [List.length_append, List.length_singleton]
      omega)
    n hn s log h

theorem matchOrder_sound (b : OrderBook) (hS : b.Sound) (b2 : OrderBook) (fills : List Fill)
    (h : matchOrder b = some (b2, fills)) :
    b2.Sound ∧ b2.count = b.count ∧
      openCount b2 b.count + fills.length ≤ openCount b b.count := by
  have hcnt : b2.count = b.count :=
    matchLoop_count b b.count hS.1 b.count (Nat.le_refl _) b2 fills h
  obtain ⟨hS2, hopen⟩ := matchLoop_sound b b.count hS.1 hS.2 b.count (Nat.le_refl _) b2 fills h
  refine ⟨⟨by rw [hcnt]; exact hS.1, fun k hk => hS2 k (by rw [← hcnt]; exact hk)⟩, hcnt, hopen⟩

theorem openCount_le_self (b : OrderBook) (n : Nat) : openCount b n ≤ n := by
  induction n with
  | zero => exact Nat.le_refl _
  | succ n ih =>
    simp only [openCount]
    split_ifs <;> omega

/-- Runs of `matchOrder` calls and `addOrder` calls with `int` quantities `> 0` from the
empty book reach sound books. -/
theorem runCalls_sound (calls : List Call) (hpos : ∀ c, c ∈ calls → c.PositiveIntQuantity) :
    ∃ r, runCalls (Run.start order_book) calls = some r ∧ r.book.Sound :=
  runCalls_invariant Call.PositiveIntQuantity (fun r => r.book.Sound)
    (fun r c hr hPc => by
      obtain ⟨hcap, hS⟩ := hr
      cases c with
      | addOrder type ticker quantity price =>
        by_cases hrej : ticker.length ≥ MAX_TICKER_LENGTH ∨ r.book.count ≥ MAX_ORDERS
        · exact ⟨_, Run.call_addOrder_rejected r type ticker quantity price hrej, hcap, hS⟩
        · have ht : ticker.length < MAX_TICKER_LENGTH :=
            Nat.lt_of_not_le fun h => hrej (Or.inl h)
          have hroom : r.book.count < MAX_ORDERS :=
            Nat.lt_of_not_le fun h => hrej (Or.inr h)
          have hq : 0 < quantity ∧ quantity ≤ INT_MAX := hPc
          refine ⟨_, Run.call_addOrder_accepted r type ticker quantity price ht hroom,
            hroom, ?_⟩
          intro k hk
          by_cases hkc : k = r.book.count
          · simp only [hkc, if_true]
            refine ⟨⟨fun hf => absurd hf (by decide), fun hz => ?_⟩, by omega, hq.2⟩
            omega
          · have hk2 : k < r.book.count := by
              have : k < r.book.count + 1 := hk
              omega
            simp only [hkc, if_false]
            exact hS k hk2
      | matchOrder =>
        obtain ⟨b2, fills, hm, hcall⟩ := Run.call_matchOrder r hcap
        exact ⟨_, hcall, (matchOrder_sound r.book ⟨hcap, hS⟩ b2 fills hm).1⟩)
    calls (Run.start order_book)
    ⟨Nat.zero_le _, fun k hk => absurd hk (Nat.not_lt_zero k)⟩ hpos

theorem passes_succ (b s : OrderBook) (n : Nat) (h : passes b n = some s) :
    passes b (n + 1) = (matchOrder s).map fun r => r.1 := by
  simp [passes, h]

/-- After `n` passes over a sound book, either each pass so far has closed an order or
the book is one that a further pass leaves unchanged. -/
theorem passes_progress (b : OrderBook) (hS : b.Sound) (n : Nat) :
    ∃ s, passes b n = some s ∧ s.Sound ∧ s.count = b.count ∧
      (openCount s b.count + n ≤ openCount b b.count ∨ matchOrder s = some (s, [])) := by
  induction n with
  | zero => exact ⟨b, rfl, hS, rfl, Or.inl (Nat.le_refl _)⟩
  | succ n ih =>
    obtain ⟨s, hs, hSs, hcnt, hcase⟩ := ih
    obtain ⟨s2, fills, hm⟩ := matchOrder_total s hSs.1
    obtain ⟨hS2, hcnt2, hopen⟩ := matchOrder_sound s hSs s2 fills hm
    have hnext : passes b (n + 1) = some s2 := by
      rw [passes_succ b s n hs, hm]
      rfl
    rw [hcnt] at hopen
    refine ⟨s2, hnext, hS2, hcnt2.trans hcnt, ?_⟩
    by_cases hnil : fills = []
    · have hsame : s2 = s :=
        matchLoop_no_fill_unchanged s s.count hSs.1 s.count (Nat.le_refl _) s2 fills hm hnil
      right
      rw [hsame]
      rw [hsame, hnil] at hm
      exact hm
    · rcases hcase with hle | hfix
      · left
        have hpos : 0 < fills.length := List.length_pos.mpr hnil
        omega
      · rw [hfix] at hm
        simp only [Option.some.injEq, Prod.mk.injEq] at hm
        exact absurd hm.2.symm hnil

theorem passes_fixed (b s : OrderBook) (n : Nat) (h : passes b n = some s)
    (hfix : matchOrder s = some (s, [])) (k : Nat) : passes b (n + k) = some s := by
  induction k with
  | zero => exact h
  | succ k ih =>
    have : n + (k + 1) = (n + k) + 1 := rfl
    rw [this, passes_succ b s (n + k) ih, hfix]
    rfl

/-! ## Passes without a fill -/

/-- The log of the outer loop only grows. -/
theorem matchLoop_log_length_mono (b : OrderBook) (count : Nat) (hc : count ≤ MAX_ORDERS)
    (n : Nat) (s : OrderBook) (log : List Fill) (hs : matchLoop b count n = some (s, log))
    (m : Nat) (hnm : n ≤ m) (hm : m ≤ count) (s2 : OrderBook) (log2 : List Fill)
    (hs2 : matchLoop b count m = some (s2, log2)) : log.length ≤ log2.length := by
  induction m generalizing s2 log2 with
  | zero =>
    have hn0 : n = 0 := Nat.le_zero.mp hnm
    subst hn0
    rw [hs] at hs2
    simp only [Option.some.injEq, Prod.mk.injEq] at hs2
    rw [← hs2.2]
  | succ m ih =>
    rcases Nat.lt_or_ge n (m + 1) with hlt | hge
    · obtain ⟨s0, log0, hs0, hnext⟩ := matchLoop_iter b count m hc hm
      have h0 := ih (Nat.le_of_lt_succ hlt) (Nat.le_of_succ_le hm) s0 log0 hs0
      rcases hnext with ⟨h1, _⟩ | ⟨j0, _, _, _, _, _, _, h1⟩
      · rw [h1] at hs2
        simp only [Option.some.injEq, Prod.mk.injEq] at hs2
        rw [← hs2.2]
        exact h0
      · rw [h1] at hs2
        simp only [Option.some.injEq, Prod.mk.injEq] at hs2
        rw [← hs2.2, List.length_append, List.length_singleton]
        omega
    · have hnm3 : n = m + 1 := Nat.le_antisymm hnm hge
      subst hnm3
      rw [hs] at hs2
      simp only [Option.some.injEq, Prod.mk.injEq] at hs2
      rw [← hs2.2]

/-- Fixpoint below the sentinel: on a book within capacity, `matchOrder` performs no
fill and returns the book unchanged if and only if there is no Open Buy `i` below
`count` with an eligible sell priced below `DBL_MAX`. -/
theorem matchOrder_no_fill_iff (b : OrderBook) (hc : b.count ≤ MAX_ORDERS) :
    matchOrder b = some (b, []) ↔
      ¬ ∃ i j, i < b.count ∧ (b.orders i).is_matched = false ∧
        (b.orders i).type = OrderType.BUY ∧ Eligible b b.count i j ∧
        (b.orders j).price < DBL_MAX := by
  constructor
  · intro hfix hex
    obtain ⟨i, j, hi, hm, ht, he, hlt⟩ := hex
    obtain ⟨s, log, hs, hsel⟩ := matchLoop_selects_best b hc i hi
    have hlen := matchLoop_log_length_mono b b.count hc i s log hs b.count (Nat.le_of_lt hi)
      (Nat.le_refl _) b [] hfix
    have hnil : log = [] := List.length_eq_zero.mp (Nat.le_zero.mp hlen)
    have hsb : s = b :=
      matchLoop_no_fill_unchanged b b.count hc i (Nat.le_of_lt hi) s log hs hnil
    rw [hsb] at hsel
    obtain ⟨j0, _, _, _, hnext⟩ := (hsel hm ht).1 ⟨j, he, hlt⟩
    have hlen2 := matchLoop_log_length_mono b b.count hc (i + 1) _ _ hnext b.count hi
      (Nat.le_refl _) b [] hfix
    simp only [List.length_append, List.length_singleton, List.length_nil] at hlen2
    omega
  · intro hno
    have hall : ∀ n, n ≤ b.count → matchLoop b b.count n = some (b, []) := by
      intro n
      induction n with
      | zero => exact fun _ => rfl
      | succ n ih =>
        intro hn
        have hprev := ih (Nat.le_of_succ_le hn)
        obtain ⟨s, log, hs, hnext⟩ := matchLoop_iter b b.count n hc hn
        rw [hprev] at hs
        simp only [Option.some.injEq, Prod.mk.injEq] at hs
        rw [← hs.1, ← hs.2] at hnext
        rcases hnext with ⟨h1, _⟩ | ⟨j0, hm, ht, he, hlt, _, _, _⟩
        · exact h1
        · exact absurd ⟨n, j0, hn, hm, ht, he, hlt⟩ hno
    exact hall b.count (Nat.le_refl _)

/-! ## Claims -/

/-- C1 fails on the code at a sell priced `DBL_MAX`: in `sentinelBook` the buy at
index 0 is Open when the outer loop reaches it and the sell at index 1 is eligible for
it (Open, Sell, same ticker, price not above the buy's), so the set `E` is non-empty;
yet `matchOrder` prints no `MATCH` line and leaves both orders Open with their
quantities, because `price < best_sell_price` is false against the initial
`best_sell_price = DBL_MAX`. -/
theorem c1_sell_at_sentinel_price_not_selected :
    sentinelBook.count = 2 ∧
    matchLoop sentinelBook sentinelBook.count 0 = some (sentinelBook, []) ∧
    (sentinelBook.orders 0).is_matched = false ∧
    (sentinelBook.orders 0).type = OrderType.BUY ∧
    Eligible sentinelBook sentinelBook.count 0 1 ∧
    (matchOrder sentinelBook).map (fun r => r.2) = some [] ∧
    (matchOrder sentinelBook).map (fun r => (r.1.orders 0, r.1.orders 1)) =
      some (sentinelBook.orders 0, sentinelBook.orders 1) := by
  refine ⟨rfl, rfl, by decide, by decide, by decide, by decide, by decide⟩

/-- C2, match eligibility: on a book within capacity `matchOrder` returns, and every
fill `f` it performs is between a buy index `i = f.buy_index` and a sell index `j`
below `count` with `i ≠ j`; in the state `s` of the outer loop immediately before the
fill, order `i` is a Buy, order `j` is a Sell, their tickers are equal,
`price(j) ≤ price(i)`, and both orders are Open. -/
theorem c2_match_eligibility (b : OrderBook) (hc : b.count ≤ MAX_ORDERS) :
    ∃ b2 fills, matchOrder b = some (b2, fills) ∧
      ∀ f, f ∈ fills → ∃ (s : OrderBook) (log : List Fill) (j : Nat),
        matchLoop b b.count f.buy_index = some (s, log) ∧
        f.sell_index = Int.ofNat j ∧ f.buy_index < b.count ∧ j < b.count ∧
        f.buy_index ≠ j ∧
        (s.orders f.buy_index).type = OrderType.BUY ∧
        (s.orders j).type = OrderType.SELL ∧
        (s.orders j).ticker = (s.orders f.buy_index).ticker ∧
        (s.orders j).price ≤ (s.orders f.buy_index).price ∧
        (s.orders f.buy_index).is_matched = false ∧
        (s.orders j).is_matched = false := by
  obtain ⟨b2, fills, h⟩ := matchOrder_total b hc
  refine ⟨b2, fills, h, fun f hf => ?_⟩
  obtain ⟨_, s0, log0, j0, hlt, hs0, hm, ht, he, _, _, _, hfe, _⟩ :=
    (matchLoop_log b b.count hc b.count (Nat.le_refl _) b2 fills h).2 f hf
  refine ⟨s0, log0, j0, hs0, ?_, hlt, he.1, fun hij => he.2.1 hij.symm, ht, he.2.2.2.1,
    he.2.2.2.2.1, he.2.2.2.2.2, hm, he.2.2.1⟩
  rw [hfe]
  rfl

/-- Witness for C2 on `scenarioBook`, whose pass performs one fill. -/
theorem c2_match_eligibility_witness :
    scenarioBook.count ≤ MAX_ORDERS ∧
    (matchOrder scenarioBook).map (fun r => r.2.length) = some 1 ∧
    ∃ b2 fills, matchOrder scenarioBook = some (b2, fills) ∧
      ∀ f, f ∈ fills → ∃ (s : OrderBook) (log : List Fill) (j : Nat),
        matchLoop scenarioBook scenarioBook.count f.buy_index = some (s, log) ∧
        f.sell_index = Int.ofNat j ∧ f.buy_index < scenarioBook.count ∧
        j < scenarioBook.count ∧ f.buy_index ≠ j ∧
        (s.orders f.buy_index).type = OrderType.BUY ∧
        (s.orders j).type = OrderType.SELL ∧
        (s.orders j).ticker = (s.orders f.buy_index).ticker ∧
        (s.orders j).price ≤ (s.orders f.buy_index).price ∧
        (s.orders f.buy_index).is_matched = false ∧
        (s.orders j).is_matched = false :=
  ⟨by decide, by decide, c2_match_eligibility scenarioBook (by decide)⟩

/-- C3 as stated fails at `overflowBook`: the pass performs one fill, of buy 0
(quantity 2147483647) against sell 1 (quantity -1), with matched quantity
`min = -1`; the claim gives the buy the new quantity `2147483647 - (-1) = 2147483648`,
which no `int` holds, and the stored quantity is `-2147483648`. -/
theorem c3_counterexample_int_range :
    overflowBook.count ≤ MAX_ORDERS ∧
    (overflowBook.orders 0).quantity = 2147483647 ∧
    (overflowBook.orders 1).quantity = -1 ∧
    (matchOrder overflowBook).map
      (fun r => r.2.map (fun f => (f.buy_index, f.sell_index, f.matched_quantity))) =
        some [(0, 1, -1)] ∧
    (matchOrder overflowBook).map (fun r => (r.1.orders 0).quantity) = some (-2147483648) ∧
    (-2147483648 : Int) ≠ (overflowBook.orders 0).quantity - (-1) := by
  refine ⟨by decide, by decide, by decide, by decide, by decide, by decide⟩

/-- C3 as amended, fill application: on a book within capacity `matchOrder` returns,
and for every fill `f` of buy `i = f.buy_index` against sell `j`, with `s` the state
immediately before the fill and `s2` the state after it: both orders were Open,
`f.matched_quantity = min(q_i, q_j)`; the new quantities are `q_i - filled` and
`q_j - filled` reduced to the range of `int`, hence equal to `q_i - filled`
(`q_j - filled`) whenever that difference lies between `INT_MIN` and `INT_MAX`; order
`i` is Filled after the fill exactly when its new quantity is 0, and likewise order
`j`; every other slot is unchanged. -/
theorem c3_fill_application (b : OrderBook) (hc : b.count ≤ MAX_ORDERS) :
    ∃ b2 fills, matchOrder b = some (b2, fills) ∧
      ∀ f, f ∈ fills → ∃ (s : OrderBook) (log : List Fill) (s2 : OrderBook) (j : Nat),
        matchLoop b b.count f.buy_index = some (s, log) ∧
        matchLoop b b.count (f.buy_index + 1) = some (s2, log ++ [f]) ∧
        f.sell_index = Int.ofNat j ∧ j ≠ f.buy_index ∧
        (s.orders f.buy_index).is_matched = false ∧ (s.orders j).is_matched = false ∧
        f.matched_quantity = min (s.orders f.buy_index).quantity (s.orders j).quantity ∧
        (s2.orders f.buy_index).quantity =
          wrapInt ((s.orders f.buy_index).quantity - f.matched_quantity) ∧
        (s2.orders j).quantity = wrapInt ((s.orders j).quantity - f.matched_quantity) ∧
        (INT_MIN ≤ (s.orders f.buy_index).quantity - f.matched_quantity →
          (s.orders f.buy_index).quantity - f.matched_quantity ≤ INT_MAX →
          (s2.orders f.buy_index).quantity =
            (s.orders f.buy_index).quantity - f.matched_quantity) ∧
        (INT_MIN ≤ (s.orders j).quantity - f.matched_quantity →
          (s.orders j).quantity - f.matched_quantity ≤ INT_MAX →
          (s2.orders j).quantity = (s.orders j).quantity - f.matched_quantity) ∧
        ((s2.orders f.buy_index).is_matched = true ↔ (s2.orders f.buy_index).quantity = 0) ∧
        ((s2.orders j).is_matched = true ↔ (s2.orders j).quantity = 0) ∧
        ∀ k, k ≠ f.buy_index → k ≠ j → s2.orders k = s.orders k := by
  obtain ⟨b2, fills, h⟩ := matchOrder_total b hc
  refine ⟨b2, fills, h, fun f hf => ?_⟩
  obtain ⟨_, s0, log0, j0, _, hs0, hm, _, he, _, _, _, hfe, hnext⟩ :=
    (matchLoop_log b b.count hc b.count (Nat.le_refl _) b2 fills h).2 f hf
  have hmq : f.matched_quantity = matchedQty s0 f.buy_index j0 := by
    rw [hfe]
    rfl
  have hqi : ((afterFill s0 f.buy_index j0).orders f.buy_index).quantity =
      wrapInt ((s0.orders f.buy_index).quantity - f.matched_quantity) := by
    rw [afterFill_buy, hmq]
  have hqj : ((afterFill s0 f.buy_index j0).orders j0).quantity =
      wrapInt ((s0.orders j0).quantity - f.matched_quantity) := by
    rw [afterFill_sell s0 f.buy_index j0 he.2.1, hmq]
  refine ⟨s0, log0, afterFill s0 f.buy_index j0, j0, hs0, hnext, by rw [hfe]; rfl, he.2.1, hm,
    he.2.2.1, by rw [hmq, matchedQty_eq_min], hqi, hqj, ?_, ?_, ?_, ?_, ?_⟩
  · intro h1 h2
    rw [hqi, wrapInt_of_range _ h1 h2]
  · intro h1 h2
    rw [hqj, wrapInt_of_range _ h1 h2]
  · rw [afterFill_buy]
    simp [hm]
  · rw [afterFill_sell s0 f.buy_index j0 he.2.1]
    simp [he.2.2.1]
  · intro k hki hkj
    exact afterFill_other s0 f.buy_index j0 k hki hkj

/-- Witness for C3 on `scenarioBook`, whose pass performs one fill. -/
theorem c3_fill_application_witness :
    scenarioBook.count ≤ MAX_ORDERS ∧
    (matchOrder scenarioBook).map (fun r => r.2.length) = some 1 ∧
    ∃ b2 fills, matchOrder scenarioBook = some (b2, fills) ∧
      ∀ f, f ∈ fills → ∃ (s : OrderBook) (log : List Fill) (s2 : OrderBook) (j : Nat),
        matchLoop scenarioBook scenarioBook.count f.buy_index = some (s, log) ∧
        matchLoop scenarioBook scenarioBook.count (f.buy_index + 1) = some (s2, log ++ [f]) ∧
        f.sell_index = Int.ofNat j ∧ j ≠ f.buy_index ∧
        (s.orders f.buy_index).is_matched = false ∧ (s.orders j).is_matched = false ∧
        f.matched_quantity = min (s.orders f.buy_index).quantity (s.orders j).quantity ∧
        (s2.orders f.buy_index).quantity =
          wrapInt ((s.orders f.buy_index).quantity - f.matched_quantity) ∧
        (s2.orders j).quantity = wrapInt ((s.orders j).quantity - f.matched_quantity) ∧
        (INT_MIN ≤ (s.orders f.buy_index).quantity - f.matched_quantity →
          (s.orders f.buy_index).quantity - f.matched_quantity ≤ INT_MAX →
          (s2.orders f.buy_index).quantity =
            (s.orders f.buy_index).quantity - f.matched_quantity) ∧
        (INT_MIN ≤ (s.orders j).quantity - f.matched_quantity →
          (s.orders j).quantity - f.matched_quantity ≤ INT_MAX →
          (s2.orders j).quantity = (s.orders j).quantity - f.matched_quantity) ∧
        ((s2.orders f.buy_index).is_matched = true ↔ (s2.orders f.buy_index).quantity = 0) ∧
        ((s2.orders j).is_matched = true ↔ (s2.orders j).quantity = 0) ∧
        ∀ k, k ≠ f.buy_index → k ≠ j → s2.orders k = s.orders k :=
  ⟨by decide, by decide, c3_fill_application scenarioBook (by decide)⟩

/-- C4 as stated fails at `overflowBook`: the sell selected for buy 0 has the strictly
smaller quantity (-1 against 2147483647), the buy is left Open, but its quantity
afterwards is `-2147483648`, not its old quantity reduced by the sell's quantity,
`2147483647 - (-1) = 2147483648`. -/
theorem c4_counterexample_int_range :
    overflowBook.count ≤ MAX_ORDERS ∧
    (matchOrder overflowBook).map (fun r => r.2.map (fun f => (f.buy_index, f.sell_index))) =
      some [(0, 1)] ∧
    (overflowBook.orders 1).quantity < (overflowBook.orders 0).quantity ∧
    (matchOrder overflowBook).map
      (fun r => ((r.1.orders 0).is_matched, (r.1.orders 0).quantity)) =
        some (false, -2147483648) ∧
    (-2147483648 : Int) ≠ (overflowBook.orders 0).quantity - (overflowBook.orders 1).quantity := by
  refine ⟨by decide, by decide, by decide, by decide, by decide⟩

/-- C4 as amended, at most one counterparty per buy per pass: on a book within
capacity whose quantities are values of type `int`, `matchOrder` returns and no buy index occurs twice among its fills; and for
every fill `f` of buy `i` against a sell `j` whose quantity `q_j` was strictly smaller
than `q_i` immediately before the fill, in the book `b2` left by the pass order `i` is
an Open Buy whose quantity is `q_i - q_j` reduced to the range of `int`, hence exactly
`q_i - q_j` whenever `q_i - q_j ≤ INT_MAX`; and when the outer loop of the next
`matchOrder` call reaches index `i`, the order is still that Open Buy, so that it is
processed again. -/
theorem c4_one_fill_per_buy (b : OrderBook) (hc : b.count ≤ MAX_ORDERS)
    (hq : b.IntQuantities) :
    ∃ b2 fills, matchOrder b = some (b2, fills) ∧
      (fills.map Fill.buy_index).Nodup ∧
      ∀ f, f ∈ fills → ∃ (s : OrderBook) (log : List Fill) (j : Nat),
        matchLoop b b.count f.buy_index = some (s, log) ∧
        f.sell_index = Int.ofNat j ∧
        ((s.orders j).quantity < (s.orders f.buy_index).quantity →
          (b2.orders f.buy_index).is_matched = false ∧
          (b2.orders f.buy_index).type = OrderType.BUY ∧
          (b2.orders f.buy_index).quantity =
            wrapInt ((s.orders f.buy_index).quantity - (s.orders j).quantity) ∧
          ((s.orders f.buy_index).quantity - (s.orders j).quantity ≤ INT_MAX →
            (b2.orders f.buy_index).quantity =
              (s.orders f.buy_index).quantity - (s.orders j).quantity) ∧
          ∃ (s3 : OrderBook) (log3 : List Fill),
            matchLoop b2 b2.count f.buy_index = some (s3, log3) ∧
            s3.orders f.buy_index = b2.orders f.buy_index) := by
  obtain ⟨b2, fills, h⟩ := matchOrder_total b hc
  obtain ⟨hpair, hlog⟩ := matchLoop_log b b.count hc b.count (Nat.le_refl _) b2 fills h
  have hcount : b2.count = b.count := matchLoop_count b b.count hc b.count (Nat.le_refl _) b2 fills h
  refine ⟨b2, fills, h, ?_, fun f hf => ?_⟩
  · exact List.Pairwise.imp (fun hxy => Nat.ne_of_lt hxy) hpair
  · obtain ⟨_, s0, log0, j0, hlt, hs0, hm, ht, he, _, _, _, hfe, hnext⟩ := hlog f hf
    refine ⟨s0, log0, j0, hs0, by rw [hfe]; rfl, fun hsmall => ?_⟩
    have hmq : matchedQty s0 f.buy_index j0 = (s0.orders j0).quantity := by
      unfold matchedQty
      rw [if_neg (by omega)]
    have hty2 : ((afterFill s0 f.buy_index j0).orders f.buy_index).type = OrderType.BUY := by
      rw [(afterFill_fixed_fields s0 f.buy_index j0 f.buy_index).1, ht]
    have hkeep : b2.orders f.buy_index = (afterFill s0 f.buy_index j0).orders f.buy_index :=
      matchLoop_buy_kept b b.count hc f.buy_index (f.buy_index + 1) _ _ hnext hty2 b.count hlt
        (Nat.le_refl _) (Or.inl (Nat.lt_succ_self _)) b2 fills h
    have hval : (b2.orders f.buy_index).quantity =
        wrapInt ((s0.orders f.buy_index).quantity - (s0.orders j0).quantity) := by
      rw [hkeep, afterFill_buy, hmq]
    have hq0 : s0.IntQuantities :=
      matchLoop_intQuantities b b.count hc hq f.buy_index (Nat.le_of_lt hlt) s0 log0 hs0
    have hnz : wrapInt ((s0.orders f.buy_index).quantity - (s0.orders j0).quantity) ≠ 0 := by
      have hi := hq0 f.buy_index
      have hj := hq0 j0
      unfold INT_MIN INT_MAX at hi hj
      unfold wrapInt
      omega
    have hopen : (b2.orders f.buy_index).is_matched = false := by
      rw [hkeep, afterFill_buy, hmq]
      simp [hm, hnz]
    have hbuy : (b2.orders f.buy_index).type = OrderType.BUY := by
      rw [hkeep]
      exact hty2
    refine ⟨hopen, hbuy, hval, fun hle => ?_, ?_⟩
    · rw [hval]
      exact wrapInt_of_range _ (by unfold INT_MIN; omega) hle
    · have hc2 : b2.count ≤ MAX_ORDERS := by rw [hcount]; exact hc
      have hlt2 : f.buy_index ≤ b2.count := by rw [hcount]; exact Nat.le_of_lt hlt
      obtain ⟨s3, log3, hs3⟩ := matchLoop_total b2 b2.count f.buy_index hc2 hlt2
      exact ⟨s3, log3, hs3, matchLoop_buy_kept b2 b2.count hc2 f.buy_index 0 b2 [] rfl hbuy
        f.buy_index (Nat.zero_le _) hlt2 (Or.inr (Nat.le_refl _)) s3 log3 hs3⟩

/-- Witness for C4 on `scenarioBook`: its pass fills buy 0 once, against sell 1 of
smaller quantity, although sell 2 is still eligible for buy 0 in the book left by the
pass. -/
theorem c4_one_fill_per_buy_witness :
    scenarioBook.count ≤ MAX_ORDERS ∧ scenarioBook.IntQuantities ∧
    (matchOrder scenarioBook).map
      (fun r => (r.2.map Fill.buy_index, decide (Eligible r.1 r.1.count 0 2))) =
        some ([0], true) ∧
    ∃ b2 fills, matchOrder scenarioBook = some (b2, fills) ∧
      (fills.map Fill.buy_index).Nodup ∧
      ∀ f, f ∈ fills → ∃ (s : OrderBook) (log : List Fill) (j : Nat),
        matchLoop scenarioBook scenarioBook.count f.buy_index = some (s, log) ∧
        f.sell_index = Int.ofNat j ∧
        ((s.orders j).quantity < (s.orders f.buy_index).quantity →
          (b2.orders f.buy_index).is_matched = false ∧
          (b2.orders f.buy_index).type = OrderType.BUY ∧
          (b2.orders f.buy_index).quantity =
            wrapInt ((s.orders f.buy_index).quantity - (s.orders j).quantity) ∧
          ((s.orders f.buy_index).quantity - (s.orders j).quantity ≤ INT_MAX →
            (b2.orders f.buy_index).quantity =
              (s.orders f.buy_index).quantity - (s.orders j).quantity) ∧
          ∃ (s3 : OrderBook) (log3 : List Fill),
            matchLoop b2 b2.count f.buy_index = some (s3, log3) ∧
            s3.orders f.buy_index = b2.orders f.buy_index) :=
  have hq : scenarioBook.IntQuantities :=
    addOrder_intQuantities _ _ _ _ _
      (addOrder_intQuantities _ _ _ _ _
        (addOrder_intQuantities _ _ _ _ _ order_book_intQuantities (by decide) (by decide))
        (by decide) (by decide))
      (by decide) (by decide)
  ⟨by decide, hq, by decide, c4_one_fill_per_buy scenarioBook (by decide) hq⟩

/-- C5, status/quantity invariant: every sequence of `matchOrder` calls and `addOrder`
calls with quantity argument `> 0`, run from the empty book, runs to its end, and in
the book it reaches every order at an index below `count` is Filled if and only if its
quantity is 0; in particular no order with quantity `> 0` is Filled and no Open order
has quantity 0. -/
theorem c5_filled_iff_quantity_zero (calls : List Call)
    (hpos : ∀ c, c ∈ calls → c.PositiveQuantity) :
    ∃ r, runCalls (Run.start order_book) calls = some r ∧
      ∀ k, k < r.book.count →
        ((r.book.orders k).is_matched = true ↔ (r.book.orders k).quantity = 0) ∧
        (0 < (r.book.orders k).quantity → (r.book.orders k).is_matched = false) ∧
        ((r.book.orders k).is_matched = false → (r.book.orders k).quantity ≠ 0) := by
  obtain ⟨r, hrun, _, hI⟩ := runCalls_invariant Call.PositiveQuantity
    (fun r => r.book.count ≤ MAX_ORDERS ∧ ∀ k, k < r.book.count →
      ((r.book.orders k).is_matched = true ↔ (r.book.orders k).quantity = 0))
    (fun r c hr hPc => by
      obtain ⟨hcap, hiff⟩ := hr
      cases c with
      | addOrder type ticker quantity price =>
        refine ⟨_, rfl, (addOrder_count_le r.book type ticker quantity price hcap).1, ?_⟩
        intro k hk
        by_cases ht : ticker.length ≥ MAX_TICKER_LENGTH
        · simp only [addOrder_ticker_too_long r.book type ticker quantity price ht] at hk ⊢
          exact hiff k hk
        · by_cases hfull : r.book.count ≥ MAX_ORDERS
          · simp only [addOrder_book_full r.book type ticker quantity price
              (Nat.lt_of_not_le ht) hfull] at hk ⊢
            exact hiff k hk
          · simp only [addOrder_accepted r.book type ticker quantity price
              (Nat.lt_of_not_le ht) (Nat.lt_of_not_le hfull)] at hk ⊢
            by_cases hkc : k = r.book.count
            · have hq : 0 < quantity := hPc
              simp only [hkc, if_true]
              constructor
              · intro hf
                exact absurd hf (by decide)
              · intro hz
                omega
            · simp only [hkc, if_false]
              exact hiff k (by omega)
      | matchOrder =>
        obtain ⟨b2, fills, hm, hcall⟩ := Run.call_matchOrder r hcap
        have hcnt : b2.count = r.book.count :=
          matchLoop_count r.book r.book.count hcap r.book.count (Nat.le_refl _) b2 fills hm
        refine ⟨_, hcall, by simp only [hcnt]; exact hcap, ?_⟩
        intro k hk
        simp only [hcnt] at hk
        exact matchLoop_flag_iff r.book r.book.count hcap hiff r.book.count (Nat.le_refl _)
          b2 fills hm k hk)
    calls (Run.start order_book)
    ⟨Nat.zero_le _, fun k hk => absurd hk (Nat.not_lt_zero k)⟩ hpos
  refine ⟨r, hrun, fun k hk => ⟨hI k hk, fun hq => ?_, fun hm hz => ?_⟩⟩
  · cases hmk : (r.book.orders k).is_matched
    · rfl
    · have := (hI k hk).mp hmk
      omega
  · have := (hI k hk).mpr hz
    rw [hm] at this
    exact absurd this (by decide)

/-- Witness for C5 on the scenario followed by two passes, which ends with orders 0
and 1 Filled and order 2 Open with quantity 40. -/
theorem c5_filled_iff_quantity_zero_witness :
    (∀ c, c ∈ scenarioCalls → c.PositiveQuantity) ∧
    (runCalls (Run.start order_book) scenarioCalls).map
      (fun r => (r.book.count, (List.range 3).map fun k =>
        ((r.book.orders k).is_matched, (r.book.orders k).quantity))) =
      some (3, [(true, 0), (true, 0), (false, 40)]) ∧
    ∃ r, runCalls (Run.start order_book) scenarioCalls = some r ∧
      ∀ k, k < r.book.count →
        ((r.book.orders k).is_matched = true ↔ (r.book.orders k).quantity = 0) ∧
        (0 < (r.book.orders k).quantity → (r.book.orders k).is_matched = false) ∧
        ((r.book.orders k).is_matched = false → (r.book.orders k).quantity ≠ 0) :=
  ⟨by decide, by decide, c5_filled_iff_quantity_zero scenarioCalls (by decide)⟩

/-- C6, quantity conservation: every sequence of `matchOrder` calls and `addOrder`
calls with an `int` quantity argument `> 0`, run from the empty book, runs to its end;
in the book it reaches the accepted calls returned the ids `0 .. count - 1`, once
each, and every order `k` below `count` has `0 ≤ quantity ≤ q0`, where `q0` is the
quantity given to the call that returned id `k`; and a further `matchOrder` call
returns and increases the quantity of no order. -/
theorem c6_quantity_conservation (calls : List Call)
    (hpos : ∀ c, c ∈ calls → c.PositiveIntQuantity) :
    ∃ r, runCalls (Run.start order_book) calls = some r ∧
      r.accepted.map Prod.fst = (List.range r.book.count).map Int.ofNat ∧
      (∀ k, k < r.book.count → ∃ q0, (Int.ofNat k, q0) ∈ r.accepted ∧
        0 ≤ (r.book.orders k).quantity ∧ (r.book.orders k).quantity ≤ q0) ∧
      ∃ b2 fills, matchOrder r.book = some (b2, fills) ∧
        ∀ k, (b2.orders k).quantity ≤ (r.book.orders k).quantity := by
  obtain ⟨r, hrun, hcap, hids, hI⟩ := runCalls_invariant Call.PositiveIntQuantity
    (fun r => r.book.count ≤ MAX_ORDERS ∧
      r.accepted.map Prod.fst = (List.range r.book.count).map Int.ofNat ∧
      ∀ k, k < r.book.count → ∃ q0, (Int.ofNat k, q0) ∈ r.accepted ∧
        0 ≤ (r.book.orders k).quantity ∧ (r.book.orders k).quantity ≤ q0 ∧ q0 ≤ INT_MAX)
    (fun r c hr hPc => by
      obtain ⟨hcap, hids, hI⟩ := hr
      cases c with
      | addOrder type ticker quantity price =>
        by_cases hrej : ticker.length ≥ MAX_TICKER_LENGTH ∨ r.book.count ≥ MAX_ORDERS
        · exact ⟨_, Run.call_addOrder_rejected r type ticker quantity price hrej,
            hcap, hids, hI⟩
        · have ht : ticker.length < MAX_TICKER_LENGTH :=
            Nat.lt_of_not_le fun h => hrej (Or.inl h)
          have hroom : r.book.count < MAX_ORDERS :=
            Nat.lt_of_not_le fun h => hrej (Or.inr h)
          have hq : 0 < quantity ∧ quantity ≤ INT_MAX := hPc
          refine ⟨_, Run.call_addOrder_accepted r type ticker quantity price ht hroom,
            hroom, ?_, ?_⟩
          · simp only [List.map_append, List.map_cons, List.map_nil, List.range_succ, hids]
            rfl
          · intro k hk
            by_cases hkc : k = r.book.count
            · refine ⟨quantity, ?_, ?_⟩
              · rw [hkc]
                exact List.mem_append_right _ (List.mem_singleton_self _)
              · simp only [hkc, if_true]
                omega
            · have hk2 : k < r.book.count := by
                have : k < r.book.count + 1 := hk
                omega
              obtain ⟨q0, hmem, h0, h1, h2⟩ := hI k hk2
              refine ⟨q0, List.mem_append_left _ hmem, ?_⟩
              simp only [hkc, if_false]
              exact ⟨h0, h1, h2⟩
      | matchOrder =>
        obtain ⟨b2, fills, hm, hcall⟩ := Run.call_matchOrder r hcap
        have hcnt : b2.count = r.book.count :=
          matchLoop_count r.book r.book.count hcap r.book.count (Nat.le_refl _) b2 fills hm
        have hle := matchLoop_quantity_le r.book r.book.count hcap
          (fun k hk => by
            obtain ⟨q0, _, h0, h1, h2⟩ := hI k hk
            exact ⟨h0, le_trans h1 h2⟩)
          r.book.count (Nat.le_refl _) b2 fills hm
        refine ⟨_, hcall, by simp only [hcnt]; exact hcap, by simp only [hcnt]; exact hids, ?_⟩
        intro k hk
        simp only [hcnt] at hk
        obtain ⟨q0, hmem, _, h1, h2⟩ := hI k hk
        exact ⟨q0, hmem, (hle.1 k hk).1, le_trans (hle.2 k) h1, h2⟩)
    calls (Run.start order_book)
    ⟨Nat.zero_le _, rfl, fun k hk => absurd hk (Nat.not_lt_zero k)⟩ hpos
  refine ⟨r, hrun, hids, fun k hk => ?_, ?_⟩
  · obtain ⟨q0, hmem, h0, h1, _⟩ := hI k hk
    exact ⟨q0, hmem, h0, h1⟩
  · obtain ⟨b2, fills, hm⟩ := matchOrder_total r.book hcap
    refine ⟨b2, fills, hm, ?_⟩
    exact (matchLoop_quantity_le r.book r.book.count hcap
      (fun k hk => by
        obtain ⟨q0, _, h0, h1, h2⟩ := hI k hk
        exact ⟨h0, le_trans h1 h2⟩)
      r.book.count (Nat.le_refl _) b2 fills hm).2

/-- Witness for C6 on the three orders of the scenario followed by one pass, which
leaves the quantities 60, 0 and 100 of the 100, 40 and 100 submitted. -/
theorem c6_quantity_conservation_witness :
    (∀ c, c ∈ scenarioCalls.take 4 → c.PositiveIntQuantity) ∧
    (runCalls (Run.start order_book) (scenarioCalls.take 4)).map
      (fun r => (r.accepted, (List.range 3).map fun k => (r.book.orders k).quantity)) =
      some ([(0, 100), (1, 40), (2, 100)], [60, 0, 100]) ∧
    ∃ r, runCalls (Run.start order_book) (scenarioCalls.take 4) = some r ∧
      r.accepted.map Prod.fst = (List.range r.book.count).map Int.ofNat ∧
      (∀ k, k < r.book.count → ∃ q0, (Int.ofNat k, q0) ∈ r.accepted ∧
        0 ≤ (r.book.orders k).quantity ∧ (r.book.orders k).quantity ≤ q0) ∧
      ∃ b2 fills, matchOrder r.book = some (b2, fills) ∧
        ∀ k, (b2.orders k).quantity ≤ (r.book.orders k).quantity :=
  ⟨by decide, by decide, c6_quantity_conservation (scenarioCalls.take 4) (by decide)⟩

/-- C7, Filled is terminal: in a book within capacity, for an order at an index below
`count` that is Filled, a `matchOrder` call returns and leaves the order Filled with
the same quantity; an `addOrder` call with any arguments, accepted or rejected, leaves
it Filled with the same quantity; hence any sequence of calls run from the book runs
to its end and leaves the order Filled with the same quantity. -/
theorem c7_filled_is_terminal (b : OrderBook) (hc : b.count ≤ MAX_ORDERS) (k : Nat)
    (hk : k < b.count) (hf : (b.orders k).is_matched = true) :
    (∃ b2 fills, matchOrder b = some (b2, fills) ∧ (b2.orders k).is_matched = true ∧
      (b2.orders k).quantity = (b.orders k).quantity) ∧
    (∀ type ticker quantity price,
      ((addOrder b type ticker quantity price).1.orders k).is_matched = true ∧
      ((addOrder b type ticker quantity price).1.orders k).quantity =
        (b.orders k).quantity) ∧
    (∀ calls, ∃ r, runCalls (Run.start b) calls = some r ∧
      (r.book.orders k).is_matched = true ∧
      (r.book.orders k).quantity = (b.orders k).quantity) := by
  refine ⟨?_, ?_, ?_⟩
  · obtain ⟨b2, fills, hm⟩ := matchOrder_total b hc
    have hkeep := matchLoop_filled_kept b b.count hc k hf b.count (Nat.le_refl _) b2 fills hm
    exact ⟨b2, fills, hm, by rw [hkeep]; exact hf, by rw [hkeep]⟩
  · intro type ticker quantity price
    rw [addOrder_other_slots b type ticker quantity price k (Nat.ne_of_lt hk)]
    exact ⟨hf, rfl⟩
  · intro calls
    obtain ⟨r, hrun, _, _, hI⟩ := runCalls_invariant (fun _ => True)
      (fun r => r.book.count ≤ MAX_ORDERS ∧ k < r.book.count ∧ r.book.orders k = b.orders k)
      (fun r c hr _ => by
        obtain ⟨hcap, hkr, hI⟩ := hr
        cases c with
        | addOrder type ticker quantity price =>
          have hcnt := addOrder_count_le r.book type ticker quantity price hcap
          exact ⟨_, rfl, hcnt.1, Nat.lt_of_lt_of_le hkr hcnt.2,
            (addOrder_other_slots r.book type ticker quantity price k
              (Nat.ne_of_lt hkr)).trans hI⟩
        | matchOrder =>
          obtain ⟨b2, fills, hm, hcall⟩ := Run.call_matchOrder r hcap
          have hcnt : b2.count = r.book.count :=
            matchLoop_count r.book r.book.count hcap r.book.count (Nat.le_refl _) b2 fills hm
          have hkeep := matchLoop_filled_kept r.book r.book.count hcap k (by rw [hI]; exact hf)
            r.book.count (Nat.le_refl _) b2 fills hm
          exact ⟨_, hcall, by simp only [hcnt]; exact hcap, by simp only [hcnt]; exact hkr,
            hkeep.trans hI⟩)
      calls (Run.start b) ⟨hc, hk, rfl⟩ (fun _ _ => trivial)
    exact ⟨r, hrun, by rw [hI]; exact hf, by rw [hI]⟩

/-- Witness for C7 on the Filled sell at index 1 of `filledBook`. -/
theorem c7_filled_is_terminal_witness :
    filledBook.count ≤ MAX_ORDERS ∧ 1 < filledBook.count ∧
    (filledBook.orders 1).is_matched = true ∧
    (∃ b2 fills, matchOrder filledBook = some (b2, fills) ∧ (b2.orders 1).is_matched = true ∧
      (b2.orders 1).quantity = (filledBook.orders 1).quantity) ∧
    (∀ type ticker quantity price,
      ((addOrder filledBook type ticker quantity price).1.orders 1).is_matched = true ∧
      ((addOrder filledBook type ticker quantity price).1.orders 1).quantity =
        (filledBook.orders 1).quantity) ∧
    (∀ calls, ∃ r, runCalls (Run.start filledBook) calls = some r ∧
      (r.book.orders 1).is_matched = true ∧
      (r.book.orders 1).quantity = (filledBook.orders 1).quantity) :=
  ⟨by decide, by decide, by decide,
    c7_filled_is_terminal filledBook (by decide) 1 (by decide) (by decide)⟩

/-- C8, immutable fields and append-only frame: on a book within capacity `matchOrder`
returns, leaves `count` unchanged and leaves `type`, `ticker`, `price` and `order_id` of
every slot unchanged; and an `addOrder` call that succeeds (returns a value other than
`-1`) raises `count` by one and leaves every slot other than the one at the old `count`
unchanged in all fields, in particular every order at an index below the old `count`. -/
theorem c8_frame (b : OrderBook) (hc : b.count ≤ MAX_ORDERS) :
    (∃ b2 fills, matchOrder b = some (b2, fills) ∧ b2.count = b.count ∧
      ∀ k, (b2.orders k).type = (b.orders k).type ∧
        (b2.orders k).ticker = (b.orders k).ticker ∧
        (b2.orders k).price = (b.orders k).price ∧
        (b2.orders k).order_id = (b.orders k).order_id) ∧
    (∀ type ticker quantity price, (addOrder b type ticker quantity price).2 ≠ -1 →
      (addOrder b type ticker quantity price).1.count = b.count + 1 ∧
      (∀ k, k ≠ b.count → (addOrder b type ticker quantity price).1.orders k = b.orders k) ∧
      ∀ k, k < b.count → (addOrder b type ticker quantity price).1.orders k = b.orders k) := by
  constructor
  · obtain ⟨b2, fills, hm⟩ := matchOrder_total b hc
    exact ⟨b2, fills, hm,
      matchLoop_count b b.count hc b.count (Nat.le_refl _) b2 fills hm,
      matchLoop_fixed_fields b b.count hc b.count (Nat.le_refl _) b2 fills hm⟩
  · intro type ticker quantity price hok
    refine ⟨?_, fun k hk => addOrder_other_slots b type ticker quantity price k hk,
      fun k hk => addOrder_other_slots b type ticker quantity price k (Nat.ne_of_lt hk)⟩
    by_cases ht : ticker.length ≥ MAX_TICKER_LENGTH
    · rw [addOrder_ticker_too_long b type ticker quantity price ht] at hok
      exact absurd rfl hok
    · by_cases hfull : b.count ≥ MAX_ORDERS
      · rw [addOrder_book_full b type ticker quantity price (Nat.lt_of_not_le ht) hfull] at hok
        exact absurd rfl hok
      · rw [addOrder_accepted b type ticker quantity price (Nat.lt_of_not_le ht)
          (Nat.lt_of_not_le hfull)]

/-- Witness for C8 on `scenarioBook`, where `matchOrder` performs a fill and an
`addOrder` call succeeds. -/
theorem c8_frame_witness :
    scenarioBook.count ≤ MAX_ORDERS ∧
    (matchOrder scenarioBook).map (fun r => r.2.length) = some 1 ∧
    (addOrder scenarioBook OrderType.SELL "MSFT" 5 (dollars 7)).2 = 3 ∧
    (∃ b2 fills, matchOrder scenarioBook = some (b2, fills) ∧ b2.count = scenarioBook.count ∧
      ∀ k, (b2.orders k).type = (scenarioBook.orders k).type ∧
        (b2.orders k).ticker = (scenarioBook.orders k).ticker ∧
        (b2.orders k).price = (scenarioBook.orders k).price ∧
        (b2.orders k).order_id = (scenarioBook.orders k).order_id) ∧
    (∀ type ticker quantity price,
      (addOrder scenarioBook type ticker quantity price).2 ≠ -1 →
      (addOrder scenarioBook type ticker quantity price).1.count = scenarioBook.count + 1 ∧
      (∀ k, k ≠ scenarioBook.count →
        (addOrder scenarioBook type ticker quantity price).1.orders k =
          scenarioBook.orders k) ∧
      ∀ k, k < scenarioBook.count →
        (addOrder scenarioBook type ticker quantity price).1.orders k =
          scenarioBook.orders k) :=
  ⟨by decide, by decide, by decide, c8_frame scenarioBook (by decide)⟩

/-- C9, unique contiguous ids: every sequence of `addOrder` and `matchOrder` calls run
from the empty book runs to its end, and the ids returned by its successful `addOrder`
calls are, in call order, exactly `0, 1, ..., k - 1` with `k` their number; they are
pairwise distinct, and `count = k` afterwards. -/
theorem c9_unique_contiguous_ids (calls : List Call) :
    ∃ r, runCalls (Run.start order_book) calls = some r ∧
      successIds r.returns = (List.range (successIds r.returns).length).map Int.ofNat ∧
      (successIds r.returns).Nodup ∧
      r.book.count = (successIds r.returns).length := by
  obtain ⟨r, hrun, _, hids⟩ := runCalls_invariant (fun _ => True)
    (fun r => r.book.count ≤ MAX_ORDERS ∧
      successIds r.returns = (List.range r.book.count).map Int.ofNat)
    (fun r c hr _ => by
      obtain ⟨hcap, hids⟩ := hr
      cases c with
      | addOrder type ticker quantity price =>
        by_cases hrej : ticker.length ≥ MAX_TICKER_LENGTH ∨ r.book.count ≥ MAX_ORDERS
        · refine ⟨_, Run.call_addOrder_rejected r type ticker quantity price hrej, hcap, ?_⟩
          simp only [successIds, List.filter_append] at hids ⊢
          rw [hids]
          simp
        · have ht : ticker.length < MAX_TICKER_LENGTH :=
            Nat.lt_of_not_le fun h => hrej (Or.inl h)
          have hroom : r.book.count < MAX_ORDERS :=
            Nat.lt_of_not_le fun h => hrej (Or.inr h)
          refine ⟨_, Run.call_addOrder_accepted r type ticker quantity price ht hroom,
            hroom, ?_⟩
          have hne : ¬ ((r.book.count : Int) = -1) := by omega
          simp only [successIds, List.filter_append] at hids ⊢
          rw [hids, List.range_succ, List.map_append]
          simp [hne]
      | matchOrder =>
        obtain ⟨b2, fills, hm, hcall⟩ := Run.call_matchOrder r hcap
        have hcnt : b2.count = r.book.count :=
          matchLoop_count r.book r.book.count hcap r.book.count (Nat.le_refl _) b2 fills hm
        exact ⟨_, hcall, by simp only [hcnt]; exact hcap, by simp only [hcnt]; exact hids⟩)
    calls (Run.start order_book) ⟨Nat.zero_le _, rfl⟩ (fun _ _ => trivial)
  have hlen : (successIds r.returns).length = r.book.count := by
    rw [hids, List.length_map, List.length_range]
  refine ⟨r, hrun, by rw [hlen]; exact hids, ?_, hlen.symm⟩
  rw [hids]
  exact (List.nodup_range r.book.count).map (fun a c h => Int.ofNat.inj h)

/-- C10, successful submit postcondition: on a book with `count = c < MAX_ORDERS` and
for a ticker of length below `MAX_TICKER_LENGTH`, with any side, quantity and price,
`addOrder` returns `c`, sets `count` to `c + 1` and leaves in slot `c` exactly the given
side, ticker, quantity and price, `order_id = c` and the order Open; and in the book
reached by any sequence of calls run from the empty book every order at an index
`i < count` has `order_id = i`. -/
theorem c10_submit_postcondition (b : OrderBook) (type : OrderType) (ticker : String)
    (quantity : Int) (price : Price) (hroom : b.count < MAX_ORDERS)
    (ht : ticker.length < MAX_TICKER_LENGTH) :
    ((addOrder b type ticker quantity price).2 = Int.ofNat b.count ∧
      (addOrder b type ticker quantity price).1.count = b.count + 1 ∧
      (addOrder b type ticker quantity price).1.orders b.count =
        { type := type, ticker := ticker, quantity := quantity, price := price,
          order_id := Int.ofNat b.count, is_matched := false }) ∧
    ∀ calls, ∃ r, runCalls (Run.start order_book) calls = some r ∧
      ∀ i, i < r.book.count → (r.book.orders i).order_id = Int.ofNat i := by
  constructor
  · rw [addOrder_accepted b type ticker quantity price ht hroom]
    simp
  · intro calls
    obtain ⟨r, hrun, _, hI⟩ := runCalls_invariant (fun _ => True)
      (fun r => r.book.count ≤ MAX_ORDERS ∧
        ∀ i, i < r.book.count → (r.book.orders i).order_id = Int.ofNat i)
      (fun r c hr _ => by
        obtain ⟨hcap, hI⟩ := hr
        cases c with
        | addOrder type ticker quantity price =>
          by_cases hrej : ticker.length ≥ MAX_TICKER_LENGTH ∨ r.book.count ≥ MAX_ORDERS
          · exact ⟨_, Run.call_addOrder_rejected r type ticker quantity price hrej, hcap, hI⟩
          · have ht : ticker.length < MAX_TICKER_LENGTH :=
              Nat.lt_of_not_le fun h => hrej (Or.inl h)
            have hroom : r.book.count < MAX_ORDERS :=
              Nat.lt_of_not_le fun h => hrej (Or.inr h)
            refine ⟨_, Run.call_addOrder_accepted r type ticker quantity price ht hroom,
              hroom, ?_⟩
            intro i hi
            by_cases hic : i = r.book.count
            · simp [hic]
            · have hi2 : i < r.book.count := by
                have : i < r.book.count + 1 := hi
                omega
              simp only [hic, if_false]
              exact hI i hi2
        | matchOrder =>
          obtain ⟨b2, fills, hm, hcall⟩ := Run.call_matchOrder r hcap
          have hcnt : b2.count = r.book.count :=
            matchLoop_count r.book r.book.count hcap r.book.count (Nat.le_refl _) b2 fills hm
          refine ⟨_, hcall, by simp only [hcnt]; exact hcap, ?_⟩
          intro i hi
          simp only [hcnt] at hi
          exact ((matchLoop_fixed_fields r.book r.book.count hcap r.book.count
            (Nat.le_refl _) b2 fills hm i).2.2.2).trans (hI i hi))
      calls (Run.start order_book)
      ⟨Nat.zero_le _, fun i hi => absurd hi (Nat.not_lt_zero i)⟩ (fun _ _ => trivial)
    exact ⟨r, hrun, hI⟩

/-- Witness for C10: a sell `MSFT` with quantity -5 and price -7 submitted to
`scenarioBook`. -/
theorem c10_submit_postcondition_witness :
    scenarioBook.count < MAX_ORDERS ∧ "MSFT".length < MAX_TICKER_LENGTH ∧
    ((addOrder scenarioBook OrderType.SELL "MSFT" (-5) (-7)).2 =
        Int.ofNat scenarioBook.count ∧
      (addOrder scenarioBook OrderType.SELL "MSFT" (-5) (-7)).1.count =
        scenarioBook.count + 1 ∧
      (addOrder scenarioBook OrderType.SELL "MSFT" (-5) (-7)).1.orders scenarioBook.count =
        { type := OrderType.SELL, ticker := "MSFT", quantity := -5, price := -7,
          order_id := Int.ofNat scenarioBook.count, is_matched := false }) ∧
    ∀ calls, ∃ r, runCalls (Run.start order_book) calls = some r ∧
      ∀ i, i < r.book.count → (r.book.orders i).order_id = Int.ofNat i :=
  ⟨by decide, by decide,
    c10_submit_postcondition scenarioBook OrderType.SELL "MSFT" (-5) (-7) (by decide)
      (by decide)⟩

/-- C11, capacity exactness: with `MAX_ORDERS = 10000`, every sequence of `matchOrder`
calls and `addOrder` attempts with tickers of valid length, run from the empty book,
runs to its end; with `n` the number of attempts, `count = min(n, MAX_ORDERS)`
afterwards and exactly `min(n, MAX_ORDERS)` attempts succeeded; an attempt on a book
with `count = MAX_ORDERS` returns `-1` and leaves the book, hence `count`, as it was;
and in any sequence of later calls every attempt returns `-1` and `count` stays
`MAX_ORDERS`. -/
theorem c11_capacity_exactness (calls : List Call)
    (hv : ∀ c, c ∈ calls → c.ValidTicker) (b : OrderBook) (hfull : b.count = MAX_ORDERS) :
    MAX_ORDERS = 10000 ∧
    (∃ r, runCalls (Run.start order_book) calls = some r ∧
      r.returns.length = attempts calls ∧
      r.book.count = min (attempts calls) MAX_ORDERS ∧
      (successIds r.returns).length = min (attempts calls) MAX_ORDERS) ∧
    (∀ type ticker quantity price, addOrder b type ticker quantity price = (b, -1)) ∧
    (∀ later, ∃ r, runCalls (Run.start b) later = some r ∧ r.book.count = MAX_ORDERS ∧
      ∀ v, v ∈ r.returns → v = -1) := by
  refine ⟨rfl, ?_, ?_, ?_⟩
  · obtain ⟨r, hrun, _, hmin, hsucc⟩ := runCalls_invariant Call.ValidTicker
      (fun r => r.book.count ≤ MAX_ORDERS ∧ r.book.count = min r.returns.length MAX_ORDERS ∧
        (successIds r.returns).length = r.book.count)
      (fun r c hr hPc => by
        obtain ⟨hcap, hmin, hsucc⟩ := hr
        cases c with
        | addOrder type ticker quantity price =>
          have ht : ticker.length < MAX_TICKER_LENGTH := hPc
          by_cases hroom : r.book.count < MAX_ORDERS
          · refine ⟨_, Run.call_addOrder_accepted r type ticker quantity price ht hroom,
              hroom, ?_, ?_⟩
            · simp only [List.length_append, List.length_singleton]
              omega
            · rw [successIds_append_accepted, List.length_append, List.length_singleton,
                hsucc]
          · refine ⟨_, Run.call_addOrder_rejected r type ticker quantity price
              (Or.inr (Nat.le_of_not_lt hroom)), hcap, ?_, ?_⟩
            · simp only [List.length_append, List.length_singleton]
              omega
            · rw [successIds_append_rejected]
              exact hsucc
        | matchOrder =>
          obtain ⟨b2, fills, hm, hcall⟩ := Run.call_matchOrder r hcap
          have hcnt : b2.count = r.book.count :=
            matchLoop_count r.book r.book.count hcap r.book.count (Nat.le_refl _) b2 fills hm
          exact ⟨_, hcall, by simp only [hcnt]; exact hcap, by simp only [hcnt]; exact hmin,
            by simp only [hcnt]; exact hsucc⟩)
      calls (Run.start order_book) ⟨Nat.zero_le _, rfl, rfl⟩ hv
    have hlen : r.returns.length = attempts calls := by
      rw [runCalls_returns_length calls _ r hrun]
      simp [Run.start]
    exact ⟨r, hrun, hlen, by rw [← hlen]; exact hmin, by rw [← hlen, hsucc]; exact hmin⟩
  · intro type ticker quantity price
    by_cases ht : ticker.length ≥ MAX_TICKER_LENGTH
    · exact addOrder_ticker_too_long b type ticker quantity price ht
    · exact addOrder_book_full b type ticker quantity price (Nat.lt_of_not_le ht)
        (Nat.le_of_eq hfull.symm)
  · intro later
    obtain ⟨r, hrun, hcnt, hret⟩ := runCalls_invariant (fun _ => True)
      (fun r => r.book.count = MAX_ORDERS ∧ ∀ v, v ∈ r.returns → v = -1)
      (fun r c hr _ => by
        obtain ⟨hcnt, hret⟩ := hr
        cases c with
        | addOrder type ticker quantity price =>
          refine ⟨_, Run.call_addOrder_rejected r type ticker quantity price
            (Or.inr (Nat.le_of_eq hcnt.symm)), hcnt, ?_⟩
          intro v hvm
          rcases List.mem_append.mp hvm with hvm | hvm
          · exact hret v hvm
          · exact List.mem_singleton.mp hvm
        | matchOrder =>
          have hcap : r.book.count ≤ MAX_ORDERS := Nat.le_of_eq hcnt
          obtain ⟨b2, fills, hm, hcall⟩ := Run.call_matchOrder r hcap
          have hc2 : b2.count = r.book.count :=
            matchLoop_count r.book r.book.count hcap r.book.count (Nat.le_refl _) b2 fills hm
          exact ⟨_, hcall, by simp only [hc2]; exact hcnt, hret⟩)
      later (Run.start b) ⟨hfull, fun v hvm => absurd hvm (List.not_mem_nil v)⟩
      (fun _ _ => trivial)
    exact ⟨r, hrun, hcnt, hret⟩

/-- Witness for C11 on the three attempts of the scenario and on `fullBook`. -/
theorem c11_capacity_exactness_witness :
    (∀ c, c ∈ scenarioCalls → c.ValidTicker) ∧ fullBook.count = MAX_ORDERS ∧
    attempts scenarioCalls = 3 ∧
    (MAX_ORDERS = 10000 ∧
    (∃ r, runCalls (Run.start order_book) scenarioCalls = some r ∧
      r.returns.length = attempts scenarioCalls ∧
      r.book.count = min (attempts scenarioCalls) MAX_ORDERS ∧
      (successIds r.returns).length = min (attempts scenarioCalls) MAX_ORDERS) ∧
    (∀ type ticker quantity price, addOrder fullBook type ticker quantity price =
      (fullBook, -1)) ∧
    (∀ later, ∃ r, runCalls (Run.start fullBook) later = some r ∧
      r.book.count = MAX_ORDERS ∧ ∀ v, v ∈ r.returns → v = -1)) :=
  ⟨by decide, by decide, by decide,
    c11_capacity_exactness scenarioCalls (by decide) fullBook (by decide)⟩

/-- C12, rejection iff and atomicity: with `MAX_TICKER_LENGTH = 10`, on a book with
`count ≤ MAX_ORDERS` and for all arguments, `addOrder` returns `-1` if and only if the
ticker's length is `≥ MAX_TICKER_LENGTH` or `count = MAX_ORDERS`; whenever it returns
`-1` the book is exactly as before the call; and a ticker of length
`≥ MAX_TICKER_LENGTH` is rejected with the book as before, whatever `count` is. -/
theorem c12_rejection_iff (b : OrderBook) (hc : b.count ≤ MAX_ORDERS) (type : OrderType)
    (ticker : String) (quantity : Int) (price : Price) :
    MAX_TICKER_LENGTH = 10 ∧
    ((addOrder b type ticker quantity price).2 = -1 ↔
      (ticker.length ≥ MAX_TICKER_LENGTH ∨ b.count = MAX_ORDERS)) ∧
    ((addOrder b type ticker quantity price).2 = -1 →
      (addOrder b type ticker quantity price).1 = b) ∧
    (ticker.length ≥ MAX_TICKER_LENGTH → addOrder b type ticker quantity price = (b, -1)) := by
  refine ⟨rfl, ?_, ?_, fun ht => addOrder_ticker_too_long b type ticker quantity price ht⟩
  · by_cases ht : ticker.length ≥ MAX_TICKER_LENGTH
    · rw [addOrder_ticker_too_long b type ticker quantity price ht]
      exact ⟨fun _ => Or.inl ht, fun _ => rfl⟩
    · by_cases hfull : b.count ≥ MAX_ORDERS
      · rw [addOrder_book_full b type ticker quantity price (Nat.lt_of_not_le ht) hfull]
        exact ⟨fun _ => Or.inr (Nat.le_antisymm hc hfull), fun _ => rfl⟩
      · rw [addOrder_accepted b type ticker quantity price (Nat.lt_of_not_le ht)
          (Nat.lt_of_not_le hfull)]
        constructor
        · intro h
          have h2 : (b.count : Int) = -1 := h
          omega
        · intro h
          rcases h with h | h
          · exact absurd h ht
          · exact absurd (Nat.le_of_eq h.symm) hfull
  · by_cases ht : ticker.length ≥ MAX_TICKER_LENGTH
    · rw [addOrder_ticker_too_long b type ticker quantity price ht]
      exact fun _ => rfl
    · by_cases hfull : b.count ≥ MAX_ORDERS
      · rw [addOrder_book_full b type ticker quantity price (Nat.lt_of_not_le ht) hfull]
        exact fun _ => rfl
      · rw [addOrder_accepted b type ticker quantity price (Nat.lt_of_not_le ht)
          (Nat.lt_of_not_le hfull)]
        intro h
        have h2 : (b.count : Int) = -1 := h
        omega

/-- Witness for C12: a ticker of 14 characters submitted to `scenarioBook` is
rejected. -/
theorem c12_rejection_iff_witness :
    scenarioBook.count ≤ MAX_ORDERS ∧
    (addOrder scenarioBook OrderType.BUY "VERYLONGTICKER" 1 (dollars 1)).2 = -1 ∧
    (MAX_TICKER_LENGTH = 10 ∧
    ((addOrder scenarioBook OrderType.BUY "VERYLONGTICKER" 1 (dollars 1)).2 = -1 ↔
      ("VERYLONGTICKER".length ≥ MAX_TICKER_LENGTH ∨ scenarioBook.count = MAX_ORDERS)) ∧
    ((addOrder scenarioBook OrderType.BUY "VERYLONGTICKER" 1 (dollars 1)).2 = -1 →
      (addOrder scenarioBook OrderType.BUY "VERYLONGTICKER" 1 (dollars 1)).1 =
        scenarioBook) ∧
    ("VERYLONGTICKER".length ≥ MAX_TICKER_LENGTH →
      addOrder scenarioBook OrderType.BUY "VERYLONGTICKER" 1 (dollars 1) =
        (scenarioBook, -1))) :=
  ⟨by decide, by decide,
    c12_rejection_iff scenarioBook (by decide) OrderType.BUY "VERYLONGTICKER" 1 (dollars 1)⟩

/-- C13 as stated fails at its last step: after the second `matchOrder` call of the
scenario the sell with id 2 is not Filled; it was submitted with 100 shares, the second
fill takes 60 of them, and it stays Open with quantity 40. -/
theorem c13_counterexample_sell_two_stays_open :
    ((matchOrder scenarioBook).bind fun r => matchOrder r.1).map
      (fun r => ((r.1.orders 2).is_matched, (r.1.orders 2).quantity)) = some (false, 40) ∧
    ((matchOrder scenarioBook).bind fun r => matchOrder r.1).map
      (fun r => (r.1.orders 2).is_matched) ≠ some true := by
  refine ⟨by decide, by decide⟩

/-- C13 as amended, two-pass scenario: from the empty book the three `addOrder` calls
return the ids 0, 1 and 2; the first `matchOrder` call prints exactly one `MATCH` line,
buy id 0 against sell id 1, 40 shares at price 45, and leaves id 1 Filled and id 0 Open
with quantity 60; the second call prints exactly one line, id 0 against id 2, 60 shares
at price 48, and leaves id 0 Filled and id 2 Open with quantity 40. -/
theorem c13_two_pass_scenario :
    (addOrder order_book OrderType.BUY "AAPL" 100 (dollars 50)).2 = 0 ∧
    (addOrder (addOrder order_book OrderType.BUY "AAPL" 100 (dollars 50)).1
      OrderType.SELL "AAPL" 40 (dollars 45)).2 = 1 ∧
    (addOrder (addOrder (addOrder order_book OrderType.BUY "AAPL" 100 (dollars 50)).1
      OrderType.SELL "AAPL" 40 (dollars 45)).1 OrderType.SELL "AAPL" 100 (dollars 48)).2 = 2 ∧
    (matchOrder scenarioBook).map (fun r => r.2) =
      some [{ buy_index := 0, sell_index := 1, buy_id := 0, sell_id := 1, ticker := "AAPL",
              matched_quantity := 40, price := dollars 45 }] ∧
    (matchOrder scenarioBook).map
      (fun r => ((r.1.orders 1).is_matched, (r.1.orders 0).is_matched,
        (r.1.orders 0).quantity)) = some (true, false, 60) ∧
    ((matchOrder scenarioBook).bind fun r => matchOrder r.1).map (fun r => r.2) =
      some [{ buy_index := 0, sell_index := 2, buy_id := 0, sell_id := 2, ticker := "AAPL",
              matched_quantity := 60, price := dollars 48 }] ∧
    ((matchOrder scenarioBook).bind fun r => matchOrder r.1).map
      (fun r => ((r.1.orders 0).is_matched, (r.1.orders 0).quantity,
        (r.1.orders 2).is_matched, (r.1.orders 2).quantity)) =
        some (true, 0, false, 40) := by
  refine ⟨by decide, by decide, by decide, by decide, by decide, by decide, by decide⟩

/-- C14, execution price: on a book within capacity `matchOrder` returns, and every
`MATCH` line `f` of a fill of buy `i` against sell `j` carries, with `s` the state
immediately before the fill, the `order_id` of order `i` and of order `j`, their common
ticker, the matched quantity `min(q_i, q_j)` and, as price, the price stored in the
selected sell order `j` (the one it was submitted with), which is not greater than the
price of the buy order. -/
theorem c14_execution_price (b : OrderBook) (hc : b.count ≤ MAX_ORDERS) :
    ∃ b2 fills, matchOrder b = some (b2, fills) ∧
      ∀ f, f ∈ fills → ∃ (s : OrderBook) (log : List Fill) (j : Nat),
        matchLoop b b.count f.buy_index = some (s, log) ∧
        f.sell_index = Int.ofNat j ∧
        f.buy_id = (s.orders f.buy_index).order_id ∧
        f.sell_id = (s.orders j).order_id ∧
        f.ticker = (s.orders f.buy_index).ticker ∧
        f.ticker = (s.orders j).ticker ∧
        f.matched_quantity = min (s.orders f.buy_index).quantity (s.orders j).quantity ∧
        f.price = (s.orders j).price ∧
        f.price = (b.orders j).price ∧
        f.price ≤ (s.orders f.buy_index).price := by
  obtain ⟨b2, fills, h⟩ := matchOrder_total b hc
  refine ⟨b2, fills, h, fun f hf => ?_⟩
  obtain ⟨_, s0, log0, j0, hlt, hs0, _, _, he, _, _, _, hfe, _⟩ :=
    (matchLoop_log b b.count hc b.count (Nat.le_refl _) b2 fills h).2 f hf
  have hfix := matchLoop_fixed_fields b b.count hc f.buy_index (Nat.le_of_lt hlt) s0 log0 hs0 j0
  have hp : f.price = (s0.orders j0).price := by rw [hfe]; rfl
  refine ⟨s0, log0, j0, hs0, by rw [hfe]; rfl, by rw [hfe]; rfl, by rw [hfe]; rfl,
    by rw [hfe]; rfl, ?_, ?_, hp, hp.trans hfix.2.2.1, by rw [hp]; exact he.2.2.2.2.2⟩
  · have ht : f.ticker = (s0.orders f.buy_index).ticker := by rw [hfe]; rfl
    rw [ht]
    exact he.2.2.2.2.1.symm
  · have hq : f.matched_quantity = matchedQty s0 f.buy_index j0 := by rw [hfe]; rfl
    rw [hq, matchedQty_eq_min]

/-- Witness for C14 on `scenarioBook`, whose pass prints one line, at the sell's price
45 for a buy priced 50. -/
theorem c14_execution_price_witness :
    scenarioBook.count ≤ MAX_ORDERS ∧
    (matchOrder scenarioBook).map (fun r => r.2.map Fill.price) = some [dollars 45] ∧
    ∃ b2 fills, matchOrder scenarioBook = some (b2, fills) ∧
      ∀ f, f ∈ fills → ∃ (s : OrderBook) (log : List Fill) (j : Nat),
        matchLoop scenarioBook scenarioBook.count f.buy_index = some (s, log) ∧
        f.sell_index = Int.ofNat j ∧
        f.buy_id = (s.orders f.buy_index).order_id ∧
        f.sell_id = (s.orders j).order_id ∧
        f.ticker = (s.orders f.buy_index).ticker ∧
        f.ticker = (s.orders j).ticker ∧
        f.matched_quantity = min (s.orders f.buy_index).quantity (s.orders j).quantity ∧
        f.price = (s.orders j).price ∧
        f.price = (scenarioBook.orders j).price ∧
        f.price ≤ (s.orders f.buy_index).price :=
  ⟨by decide, by decide, c14_execution_price scenarioBook (by decide)⟩

/-- C20, unvalidated quantity breaks monotonicity: `addOrder` accepts the quantity -5
(both calls that build `negativeBook` succeed, with ids 0 and 1), and the single
`matchOrder` call on `negativeBook` fills buy 0 against sell 1 with the negative matched
quantity `min(10, -5) = -5`, which raises the buy's quantity from 10 to 15. -/
theorem c20_negative_quantity_raises_buy :
    (addOrder order_book OrderType.BUY "X" 10 (dollars 50)).2 = 0 ∧
    (addOrder (addOrder order_book OrderType.BUY "X" 10 (dollars 50)).1
      OrderType.SELL "X" (-5) (dollars 40)).2 = 1 ∧
    (negativeBook.orders 0).quantity = 10 ∧ (negativeBook.orders 1).quantity = -5 ∧
    (matchOrder negativeBook).map
      (fun r => r.2.map fun f => (f.buy_index, f.sell_index, f.matched_quantity)) =
        some [(0, 1, -5)] ∧
    (matchOrder negativeBook).map (fun r => (r.1.orders 0).quantity) = some 15 ∧
    (negativeBook.orders 0).quantity < 15 := by
  refine ⟨by decide, by decide, by decide, by decide, by decide, by decide, by decide⟩

/-- C16, index safety: every sequence of `addOrder` and `matchOrder` calls run from the
empty book runs to its end (no out-of-range read is met on the way) and reaches a book
with `count ≤ MAX_ORDERS`; there the slot index written by a successful `addOrder` is the
old `count`, `≥ 0` and `< MAX_ORDERS`; every index below `count`, the range of `i` and
`j` in `matchOrder`, is `< MAX_ORDERS` and its read succeeds; whenever the outer loop
reaches an index `i`, the scan returns with `best_sell_index` equal to `-1` or within
`0 .. count - 1`; and `matchOrder` returns, each fill having its buy index below `count`
and its sell index within `0 .. count - 1`. -/
theorem c16_index_safety (calls : List Call) :
    ∃ r, runCalls (Run.start order_book) calls = some r ∧
      r.book.count ≤ MAX_ORDERS ∧
      (∀ type ticker quantity price,
        (addOrder r.book type ticker quantity price).2 ≠ -1 →
          (addOrder r.book type ticker quantity price).2 = Int.ofNat r.book.count ∧
          0 ≤ (addOrder r.book type ticker quantity price).2 ∧
          (addOrder r.book type ticker quantity price).2 < Int.ofNat MAX_ORDERS) ∧
      (∀ k, k < r.book.count → k < MAX_ORDERS ∧ r.book.read k = some (r.book.orders k)) ∧
      (∀ i, i < r.book.count → ∃ (s : OrderBook) (log : List Fill) (st : Int × Price),
        matchLoop r.book r.book.count i = some (s, log) ∧
        s.read i = some (s.orders i) ∧
        scanLoop s i (s.orders i).ticker (s.orders i).price r.book.count = some st ∧
        (st.1 = -1 ∨ (0 ≤ st.1 ∧ st.1 < Int.ofNat r.book.count))) ∧
      (∃ b2 fills, matchOrder r.book = some (b2, fills) ∧
        ∀ f, f ∈ fills → f.buy_index < r.book.count ∧ 0 ≤ f.sell_index ∧
          f.sell_index < Int.ofNat r.book.count) := by
  obtain ⟨r, hrun, hcap⟩ := runCalls_invariant (fun _ => True)
    (fun r => r.book.count ≤ MAX_ORDERS)
    (fun r c hr _ => by
      cases c with
      | addOrder type ticker quantity price =>
        exact ⟨_, rfl, (addOrder_count_le r.book type ticker quantity price hr).1⟩
      | matchOrder =>
        obtain ⟨b2, fills, hm, hcall⟩ := Run.call_matchOrder r hr
        have hcnt : b2.count = r.book.count :=
          matchLoop_count r.book r.book.count hr r.book.count (Nat.le_refl _) b2 fills hm
        exact ⟨_, hcall, by simp only [hcnt]; exact hr⟩)
    calls (Run.start order_book) (Nat.zero_le _) (fun _ _ => trivial)
  refine ⟨r, hrun, hcap, ?_, ?_, ?_, ?_⟩
  · intro type ticker quantity price hok
    by_cases ht : ticker.length ≥ MAX_TICKER_LENGTH
    · rw [addOrder_ticker_too_long r.book type ticker quantity price ht] at hok
      exact absurd rfl hok
    · by_cases hfull : r.book.count ≥ MAX_ORDERS
      · rw [addOrder_book_full r.book type ticker quantity price (Nat.lt_of_not_le ht)
          hfull] at hok
        exact absurd rfl hok
      · rw [addOrder_accepted r.book type ticker quantity price (Nat.lt_of_not_le ht)
          (Nat.lt_of_not_le hfull)]
        have hroom : r.book.count < MAX_ORDERS := Nat.lt_of_not_le hfull
        refine ⟨rfl, Int.ofNat_nonneg _, ?_⟩
        exact Int.ofNat_lt.mpr hroom
  · intro k hk
    have hkM : k < MAX_ORDERS := Nat.lt_of_lt_of_le hk hcap
    exact ⟨hkM, read_of_lt r.book k hkM⟩
  · intro i hi
    obtain ⟨s, log, hs⟩ := matchLoop_total r.book r.book.count i hcap (Nat.le_of_lt hi)
    obtain ⟨st, hst, hinv⟩ :=
      scanLoop_inv s i (s.orders i).ticker (s.orders i).price r.book.count hcap
    refine ⟨s, log, st, hs, read_of_lt s i (Nat.lt_of_lt_of_le hi hcap), hst, ?_⟩
    rcases hinv with ⟨h1, _⟩ | ⟨j0, hj0, h1, _⟩
    · exact Or.inl h1
    · refine Or.inr ?_
      rw [h1]
      exact ⟨Int.ofNat_nonneg _, Int.ofNat_lt.mpr hj0⟩
  · obtain ⟨b2, fills, hm⟩ := matchOrder_total r.book hcap
    refine ⟨b2, fills, hm, fun f hf => ?_⟩
    obtain ⟨_, s0, log0, j0, hlt, _, _, _, he, _, _, _, hfe, _⟩ :=
      (matchLoop_log r.book r.book.count hcap r.book.count (Nat.le_refl _) b2 fills hm).2 f hf
    have hsi : f.sell_index = Int.ofNat j0 := by rw [hfe]; rfl
    rw [hsi]
    exact ⟨hlt, Int.ofNat_nonneg _, Int.ofNat_lt.mpr he.1⟩

/-- C17 fails on the code at a sell priced `DBL_MAX`: in `sentinelBook`, within
capacity, the indices 0 and 1 are different and below `count`, order 0 is an Open Buy,
order 1 an Open Sell with the same ticker and a price not above the buy's; yet
`matchOrder` performs no fill and returns the book unchanged. -/
theorem c17_eligible_pair_left_unmatched :
    sentinelBook.count ≤ MAX_ORDERS ∧ 0 < sentinelBook.count ∧ 1 < sentinelBook.count ∧
    (sentinelBook.orders 0).is_matched = false ∧
    (sentinelBook.orders 0).type = OrderType.BUY ∧
    (sentinelBook.orders 1).is_matched = false ∧
    (sentinelBook.orders 1).type = OrderType.SELL ∧
    (sentinelBook.orders 1).ticker = (sentinelBook.orders 0).ticker ∧
    (sentinelBook.orders 1).price ≤ (sentinelBook.orders 0).price ∧
    matchOrder sentinelBook = some (sentinelBook, []) := by
  refine ⟨by decide, by decide, by decide, by decide, by decide, by decide, by decide,
    by decide, by decide, ?_⟩
  rfl

/-- C18 as stated fails at `overflowBook` for the ticker `X`: across the single
`matchOrder` call the Buy total decreases by 4294967295 (from 2147483647 to -2147483648)
while the Sell total decreases by -1 (from -1 to 0). -/
theorem c18_counterexample_int_range :
    overflowBook.count ≤ MAX_ORDERS ∧
    (matchOrder overflowBook).map
      (fun r =>
        (totalQuantity overflowBook OrderType.BUY "X" - totalQuantity r.1 OrderType.BUY "X",
          totalQuantity overflowBook OrderType.SELL "X" -
            totalQuantity r.1 OrderType.SELL "X")) = some (4294967295, -1) ∧
    (4294967295 : Int) ≠ -1 := by
  refine ⟨by decide, by decide, by decide⟩

/-- C18 as amended, shares bought equal shares sold: on a book within capacity
`matchOrder` returns, and for every ticker `t` the decrease of the total quantity of the
Buy orders of `t` and the decrease of the total quantity of the Sell orders of `t`
across the call differ by a multiple of `2^32`; they are equal, and the Buy total minus
the Sell total is the same before and after the call, whenever every quantity of the
book is within `0 .. INT_MAX`. -/
theorem c18_bought_equals_sold (b : OrderBook) (hc : b.count ≤ MAX_ORDERS) (t : String) :
    ∃ b2 fills, matchOrder b = some (b2, fills) ∧
      (4294967296 : Int) ∣
        ((totalQuantity b OrderType.BUY t - totalQuantity b2 OrderType.BUY t) -
          (totalQuantity b OrderType.SELL t - totalQuantity b2 OrderType.SELL t)) ∧
      ((∀ k, k < b.count → 0 ≤ (b.orders k).quantity ∧ (b.orders k).quantity ≤ INT_MAX) →
        totalQuantity b OrderType.BUY t - totalQuantity b2 OrderType.BUY t =
          totalQuantity b OrderType.SELL t - totalQuantity b2 OrderType.SELL t ∧
        totalQuantity b OrderType.BUY t - totalQuantity b OrderType.SELL t =
          totalQuantity b2 OrderType.BUY t - totalQuantity b2 OrderType.SELL t) := by
  obtain ⟨b2, fills, h⟩ := matchOrder_total b hc
  have hcnt : b2.count = b.count :=
    matchLoop_count b b.count hc b.count (Nat.le_refl _) b2 fills h
  obtain ⟨hdvd, hexact⟩ := matchLoop_totals b b.count hc t b.count (Nat.le_refl _) b2 fills h
  refine ⟨b2, fills, h, ?_, fun hb => ?_⟩
  · unfold totalQuantity
    rw [hcnt]
    exact hdvd
  · have heq := (hexact hb).2
    unfold totalQuantity
    rw [hcnt]
    exact ⟨heq, by omega⟩

/-- Witness for C18 on `scenarioBook` and the ticker `AAPL`: both totals decrease
by 40. -/
theorem c18_bought_equals_sold_witness :
    scenarioBook.count ≤ MAX_ORDERS ∧
    (∀ k, k < scenarioBook.count →
      0 ≤ (scenarioBook.orders k).quantity ∧ (scenarioBook.orders k).quantity ≤ INT_MAX) ∧
    (matchOrder scenarioBook).map
      (fun r =>
        (totalQuantity scenarioBook OrderType.BUY "AAPL" -
            totalQuantity r.1 OrderType.BUY "AAPL",
          totalQuantity scenarioBook OrderType.SELL "AAPL" -
            totalQuantity r.1 OrderType.SELL "AAPL")) = some (40, 40) ∧
    ∃ b2 fills, matchOrder scenarioBook = some (b2, fills) ∧
      (4294967296 : Int) ∣
        ((totalQuantity scenarioBook OrderType.BUY "AAPL" -
            totalQuantity b2 OrderType.BUY "AAPL") -
          (totalQuantity scenarioBook OrderType.SELL "AAPL" -
            totalQuantity b2 OrderType.SELL "AAPL")) ∧
      ((∀ k, k < scenarioBook.count →
          0 ≤ (scenarioBook.orders k).quantity ∧ (scenarioBook.orders k).quantity ≤ INT_MAX) →
        totalQuantity scenarioBook OrderType.BUY "AAPL" -
            totalQuantity b2 OrderType.BUY "AAPL" =
          totalQuantity scenarioBook OrderType.SELL "AAPL" -
            totalQuantity b2 OrderType.SELL "AAPL" ∧
        totalQuantity scenarioBook OrderType.BUY "AAPL" -
            totalQuantity scenarioBook OrderType.SELL "AAPL" =
          totalQuantity b2 OrderType.BUY "AAPL" - totalQuantity b2 OrderType.SELL "AAPL") :=
  ⟨by decide, by decide, by decide, c18_bought_equals_sold scenarioBook (by decide) "AAPL"⟩

/-- C19, every fill closes an order: every sequence of `matchOrder` calls and `addOrder`
calls with an `int` quantity argument `> 0`, run from the empty book, runs to its end,
and on the book it reaches a `matchOrder` call returns; each of its fills has a matched
quantity `> 0`, is between two orders that were Open immediately before it, and leaves
at least one of the two Filled; the number of Open orders after the call plus the
number of its fills is at most the number of Open orders before; and after `count`
successive `matchOrder` calls the book is one that a `matchOrder` call leaves unchanged,
with no fill, and it is the book after any larger number of calls. -/
theorem c19_every_fill_closes_an_order (calls : List Call)
    (hpos : ∀ c, c ∈ calls → c.PositiveIntQuantity) :
    ∃ r, runCalls (Run.start order_book) calls = some r ∧
      (∃ b2 fills, matchOrder r.book = some (b2, fills) ∧
        (∀ f, f ∈ fills → 0 < f.matched_quantity ∧
          ∃ (s : OrderBook) (log : List Fill) (s2 : OrderBook) (j : Nat),
            matchLoop r.book r.book.count f.buy_index = some (s, log) ∧
            matchLoop r.book r.book.count (f.buy_index + 1) = some (s2, log ++ [f]) ∧
            f.sell_index = Int.ofNat j ∧
            (s.orders f.buy_index).is_matched = false ∧ (s.orders j).is_matched = false ∧
            ((s2.orders f.buy_index).is_matched = true ∨ (s2.orders j).is_matched = true)) ∧
        openCount b2 r.book.count + fills.length ≤ openCount r.book r.book.count) ∧
      (∃ s, passes r.book r.book.count = some s ∧ matchOrder s = some (s, []) ∧
        ∀ m, r.book.count ≤ m → passes r.book m = some s) := by
  obtain ⟨r, hrun, hS⟩ := runCalls_sound calls hpos
  refine ⟨r, hrun, ?_, ?_⟩
  · obtain ⟨b2, fills, hm⟩ := matchOrder_total r.book hS.1
    refine ⟨b2, fills, hm, fun f hf => ?_, (matchOrder_sound r.book hS b2 fills hm).2.2⟩
    obtain ⟨_, s0, log0, j0, hlt, hs0, hmi, _, he, _, _, _, hfe, hnext⟩ :=
      (matchLoop_log r.book r.book.count hS.1 r.book.count (Nat.le_refl _) b2 fills hm).2 f hf
    have hS0 := (matchLoop_sound r.book r.book.count hS.1 hS.2 f.buy_index
      (Nat.le_of_lt hlt) s0 log0 hs0).1
    obtain ⟨hmpos, hone, _, _⟩ :=
      afterFill_sound s0 r.book.count f.buy_index j0 hS0 hlt he.1 he.2.1 hmi he.2.2.1
    have hmq : f.matched_quantity = matchedQty s0 f.buy_index j0 := by rw [hfe]; rfl
    exact ⟨by rw [hmq]; exact hmpos, s0, log0, afterFill s0 f.buy_index j0, j0, hs0, hnext,
      by rw [hfe]; rfl, hmi, he.2.2.1, hone⟩
  · obtain ⟨s, hs, hSs, hcnt, hcase⟩ := passes_progress r.book hS r.book.count
    have hfix : matchOrder s = some (s, []) := by
      rcases hcase with hle | hfix
      · obtain ⟨s2, fills, hm⟩ := matchOrder_total s hSs.1
        obtain ⟨_, _, hopen⟩ := matchOrder_sound s hSs s2 fills hm
        have hself := openCount_le_self r.book r.book.count
        rw [hcnt] at hopen
        have hlen : fills.length = 0 := by omega
        have hnil : fills = [] := List.length_eq_zero.mp hlen
        have hsame : s2 = s :=
          matchLoop_no_fill_unchanged s s.count hSs.1 s.count (Nat.le_refl _) s2 fills hm hnil
        rw [hsame, hnil] at hm
        exact hm
      · exact hfix
    refine ⟨s, hs, hfix, fun m hm => ?_⟩
    have := passes_fixed r.book s r.book.count hs hfix (m - r.book.count)
    rw [Nat.add_sub_cancel' hm] at this
    exact this

/-- Witness for C19 on the three orders of the scenario: the pass on the book they leave
performs one fill, of 40 shares, and two passes reach a book that a third leaves
unchanged. -/
theorem c19_every_fill_closes_an_order_witness :
    (∀ c, c ∈ scenarioCalls.take 3 → c.PositiveIntQuantity) ∧
    (matchOrder scenarioBook).map (fun r => r.2.map Fill.matched_quantity) = some [40] ∧
    (passes scenarioBook 2).map (fun s => (List.range 3).map fun k => (s.orders k).quantity) =
      (passes scenarioBook 3).map (fun s => (List.range 3).map fun k => (s.orders k).quantity) ∧
    ∃ r, runCalls (Run.start order_book) (scenarioCalls.take 3) = some r ∧
      (∃ b2 fills, matchOrder r.book = some (b2, fills) ∧
        (∀ f, f ∈ fills → 0 < f.matched_quantity ∧
          ∃ (s : OrderBook) (log : List Fill) (s2 : OrderBook) (j : Nat),
            matchLoop r.book r.book.count f.buy_index = some (s, log) ∧
            matchLoop r.book r.book.count (f.buy_index + 1) = some (s2, log ++ [f]) ∧
            f.sell_index = Int.ofNat j ∧
            (s.orders f.buy_index).is_matched = false ∧ (s.orders j).is_matched = false ∧
            ((s2.orders f.buy_index).is_matched = true ∨ (s2.orders j).is_matched = true)) ∧
        openCount b2 r.book.count + fills.length ≤ openCount r.book r.book.count) ∧
      (∃ s, passes r.book r.book.count = some s ∧ matchOrder s = some (s, []) ∧
        ∀ m, r.book.count ≤ m → passes r.book m = some s) :=
  ⟨by decide, by decide, by decide,
    c19_every_fill_closes_an_order (scenarioCalls.take 3) (by decide)⟩

end TradingEngine
